import Mathlib

/-!
Verification development for the gitlab-unfurly service (src/unfurl_message.py).

The Python source is shallowly embedded: pure helpers become Lean functions,
JSON values become an inductive `JVal`, Python exceptions become the error side
of `Except PyErr`, and the two regular expressions of `parse_path` are embedded
as explicit ordered backtracking matchers whose candidate lists enumerate
exactly the alternatives Python's `re` engine tries, first candidate first.
-/

/-- Python exception values that the embedded code can raise. -/
inductive PyErr where
  | valueError (msg : String)
  | keyError (key : String)
  | indexError
  | typeError
  | attributeError
  | nameError
  | httpError (status : Nat)
  | jsonError
deriving DecidableEq, Repr

/-- JSON values, as returned by `response.json()`. -/
inductive JVal where
  | null
  | bool (b : Bool)
  | str (s : String)
  | num (n : Int)
  | arr (xs : List JVal)
  | obj (fields : List (String × JVal))
deriving Repr

/-- Python truthiness of a JSON value (`if data[...]:`). -/
def JVal.truthy : JVal → Bool
  | .null => false
  | .bool b => b
  | .str s => s != ""
  | .num n => n != 0
  | .arr xs => !xs.isEmpty
  | .obj fs => !fs.isEmpty

/-- Dictionary lookup `data[key]`: `KeyError` when the key is absent,
`TypeError` when the value is not a JSON object. -/
def dictGet (v : JVal) (key : String) : Except PyErr JVal :=
  match v with
  | .obj fields =>
      match fields.lookup key with
      | some x => .ok x
      | none => .error (.keyError key)
  | _ => .error .typeError

/-- Python `str()` of a JSON value, used for f-string interpolation.  Claims
only ever interpolate strings; the rendering of the other constructors is a
plain stand-in for Python's `str`. -/
def pyStr : JVal → String
  | .null => "None"
  | .bool true => "True"
  | .bool false => "False"
  | .str s => s
  | .num n => toString n
  | .arr _ => "[...]"
  | .obj _ => "{...}"

/-- ASCII whitespace as recognised by Python's `str.strip` / `str.split`. -/
def isPyWs (c : Char) : Bool :=
  c = ' ' || c = '\t' || c = '\n' || c = '\r' || c = '\x0b' || c = '\x0c'

/-- Python `str.strip()`: drop leading and trailing whitespace. -/
def pyStrip (s : String) : String :=
  String.mk (((s.toList.dropWhile isPyWs).reverse.dropWhile isPyWs).reverse)

/-- Python `str.strip()` on a JSON value: `AttributeError` when it is not a
string (`data["title"].strip()`). -/
def pyStripJ (v : JVal) : Except PyErr String :=
  match v with
  | .str s => .ok (pyStrip s)
  | _ => .error .attributeError

/-- Python `str.split()` with no separator: whitespace-run splitting. -/
def pyWordsAux : List Char → List Char → List (List Char)
  | [], acc => if acc = [] then [] else [acc.reverse]
  | c :: cs, acc =>
      if isPyWs c then
        (if acc = [] then pyWordsAux cs [] else acc.reverse :: pyWordsAux cs [])
      else pyWordsAux cs (c :: acc)

/-- Words of a string in order, Python `str.split()` semantics. -/
def pyWords (s : String) : List String :=
  (pyWordsAux s.toList []).map String.mk

/-- Left fold joining further words onto an accumulated line with single
spaces. -/
def joinGo (acc : String) : List String → String
  | [] => acc
  | y :: rest => joinGo (acc ++ " " ++ y) rest

/-- Words joined by single spaces (the join `textwrap.shorten` performs). -/
def joinSpace : List String → String
  | [] => ""
  | x :: rest => joinGo x rest

/-- Whitespace-collapsed text: single spaces between words, no outer
whitespace.  This is the normalisation `textwrap.shorten` applies first. -/
def wsCollapse (s : String) : String :=
  joinSpace (pyWords s)

/-- Truncation loop of `textwrap.shorten`: keep the longest word prefix whose
joined text plus the one-character placeholder fits in `width`, then append
the placeholder. -/
def shortenGo (width : Nat) (acc : String) : List String → String
  | [] => acc ++ "…"
  | w :: rest =>
      if acc.length + 1 + w.length + 1 ≤ width then
        shortenGo width (acc ++ " " ++ w) rest
      else acc ++ "…"

/-- Truncation entry: the placeholder alone is used when not even the first
word fits alongside it. -/
def shortenTrunc (width : Nat) : List String → String
  | [] => "…"
  | w :: rest =>
      if w.length + 1 ≤ width then shortenGo width w rest else "…"

/-- Python `textwrap.shorten(text, width, placeholder="…")`: collapse
whitespace, return the collapsed text when it fits, otherwise truncate on a
word boundary and append the ellipsis.  Modelled for `width ≥ 1` (the source
always calls it with width 100 or 300). -/
def pyShorten (width : Nat) (s : String) : String :=
  let t := wsCollapse s
  if t.length ≤ width then t else shortenTrunc width (pyWords s)

/-- States of the tag-stripping scanner. -/
inductive StripMode where
  | text
  | tag
  | comment
deriving DecidableEq

/-- Modelled from the spec: `strip_html_tags` delegates to the external
`bleach` library (`bleach.clean(value, tags=[], strip=True)`), which is not
part of this repository.  Per spec section 4.6 and the repository tests it
strips markup tags entirely (unwrapping benign tags to their inner text),
removes comment markup, and entity-escapes stray `&`, `<`, `>` in text. -/
def stripHtmlAux : List Char → StripMode → List Char
  | [], _ => []
  | '-' :: '-' :: '>' :: rest, .comment => stripHtmlAux rest .text
  | _ :: rest, .comment => stripHtmlAux rest .comment
  | '>' :: rest, .tag => stripHtmlAux rest .text
  | _ :: rest, .tag => stripHtmlAux rest .tag
  | '<' :: '!' :: '-' :: '-' :: rest, .text => stripHtmlAux rest .comment
  | '<' :: '/' :: rest, .text => stripHtmlAux rest .tag
  | '<' :: c :: rest, .text =>
      if c.isAlpha then stripHtmlAux rest .tag
      else ('&' :: 'l' :: 't' :: ';' :: []) ++ stripHtmlAux (c :: rest) .text
  | '<' :: rest, .text => ('&' :: 'l' :: 't' :: ';' :: []) ++ stripHtmlAux rest .text
  | '>' :: rest, .text => ('&' :: 'g' :: 't' :: ';' :: []) ++ stripHtmlAux rest .text
  | '&' :: rest, .text => ('&' :: 'a' :: 'm' :: 'p' :: ';' :: []) ++ stripHtmlAux rest .text
  | c :: rest, .text => c :: stripHtmlAux rest .text

/-- Embedded `strip_html_tags` (see `stripHtmlAux`). -/
def strip_html_tags (s : String) : String :=
  String.mk (stripHtmlAux s.toList .text)

/-- Embedded `prepare_description`: strip markup, trim, truncate.  The
argument is the JSON value the builders pass in; a non-string raises
`TypeError` (as `bleach.clean` does). -/
def prepare_description (v : JVal) (width : Nat) : Except PyErr String :=
  match v with
  | .str s => .ok (pyShorten width (pyStrip (strip_html_tags s)))
  | _ => .error .typeError

/-- Python `==` comparison of a JSON value against a string literal: only a
JSON string can compare equal. -/
def jEqStr (v : JVal) (s : String) : Bool :=
  match v with
  | .str t => t == s
  | _ => false

/-- Embedded `format_user`: the username, suffixed when the user is blocked
(`user["state"] == "blocked"`); missing keys raise `KeyError`. -/
def format_user (user : JVal) (warn_blocked : Bool) : Except PyErr String :=
  match dictGet user "state" with
  | .error e => .error e
  | .ok st =>
    match dictGet user "username" with
    | .error e => .error e
    | .ok un =>
      if jEqStr st "blocked" then
        let tag := if warn_blocked then "(blocked) :warning:" else "(blocked)"
        .ok (pyStr un ++ " " ++ tag)
      else .ok (pyStr un)

/-- Embedded `slack_formatted_date`.  The `arrow.get(...).timestamp` epoch
value is abstracted by the raw ISO string, which no claim inspects. -/
def slack_formatted_date (raw : String) : String :=
  "<!date^" ++ raw ++ "^{date_short_pretty}|" ++ raw ++ ">"

/-- Embedded `slack_formatted_datetime` (same abstraction as above). -/
def slack_formatted_datetime (raw : String) : String :=
  "<!date^" ++ raw ++ "^{date_short_pretty} - {time_secs}|" ++ raw ++ ">"

/-- Characters `urllib.parse.quote` never encodes (its always-safe set):
ASCII letters, digits, and `_.-~`.  The source calls `quote(..., safe="")`,
so no further characters are exempt. -/
def quoteSafeChar (c : Char) : Bool :=
  c.isAlphanum || c = '_' || c = '.' || c = '-' || c = '~'

/-- Uppercase hex digit. -/
def hexDigit (n : Nat) : Char :=
  if n < 10 then Char.ofNat ('0'.toNat + n)
  else Char.ofNat ('A'.toNat + (n - 10))

/-- UTF-8 bytes of a code point (Python `quote` encodes the UTF-8 bytes). -/
def utf8Bytes (n : Nat) : List Nat :=
  if n < 0x80 then [n]
  else if n < 0x800 then [0xC0 + n / 64, 0x80 + n % 64]
  else if n < 0x10000 then [0xE0 + n / 4096, 0x80 + (n / 64) % 64, 0x80 + n % 64]
  else [0xF0 + n / 262144, 0x80 + (n / 4096) % 64, 0x80 + (n / 64) % 64, 0x80 + n % 64]

/-- Percent-encode one byte. -/
def pctByte (b : Nat) : List Char :=
  ['%', hexDigit (b / 16), hexDigit (b % 16)]

/-- Embedded `urllib.parse.quote(s, safe="")`: every character outside the
always-safe set is percent-encoded byte by byte. -/
def pyQuote (s : String) : String :=
  String.mk (s.toList.flatMap fun c =>
    if quoteSafeChar c then [c] else (utf8Bytes c.toNat).flatMap pctByte)

/-- Embedded `PathType` enumeration with its wire values. -/
inductive PathType where
  | PROJECT
  | COMMIT
  | MERGE_REQUEST
  | ISSUE
  | PIPELINE
  | JOB
  | NOTE_ISSUE
  | NOTE_MERGE_REQUESTS
deriving DecidableEq, Repr

/-- Python enum lookup `PathType(value)`: by wire value, `ValueError` when no
member has that value. -/
def pathTypeOfString (s : String) : Except PyErr PathType :=
  if s = "project" then .ok .PROJECT
  else if s = "commit" then .ok .COMMIT
  else if s = "merge_requests" then .ok .MERGE_REQUEST
  else if s = "issues" then .ok .ISSUE
  else if s = "pipelines" then .ok .PIPELINE
  else if s = "jobs" then .ok .JOB
  else if s = "note_issues" then .ok .NOTE_ISSUE
  else if s = "note_merge_requests" then .ok .NOTE_MERGE_REQUESTS
  else .error (.valueError (s ++ " is not a valid PathType"))

/-- Embedded `PathInfo` record (attrs class of the source). -/
structure PathInfo where
  type : PathType
  team : String
  project : String
  identifier : Option String := none
  subgroups : Option String := none
  note : Option String := none
deriving DecidableEq, Repr

/-- Python truthiness of the optional `subgroups` field (`if self.subgroups:`
is false both for `None` and for the empty string). -/
def optStrTruthy : Option String → Bool
  | none => false
  | some s => s != ""

/-- Embedded `PathInfo.quoted_id` property. -/
def PathInfo.quoted_id (pi : PathInfo) : String :=
  if optStrTruthy pi.subgroups then
    pyQuote (pi.team ++ "/" ++ pi.subgroups.getD "" ++ "/" ++ pi.project)
  else
    pyQuote (pi.team ++ "/" ++ pi.project)

/-!
Regex embedding.  `parse_path` matches two anchored patterns with Python's
backtracking `re` engine.  Each regex construct below returns the list of
(capture, rest) alternatives in exactly the order the engine tries them, and
the whole pattern's match list is their ordered composition; Python's
`re.match` result is the head of that list.
-/

/-- Class `\w` restricted to ASCII (the repository only feeds ASCII paths). -/
def wChar (c : Char) : Bool := c.isAlphanum || c = '_'

/-- Class `[\w-]`. -/
def wdChar (c : Char) : Bool := wChar c || c = '-'

/-- Class of word chars, dash and slash (the subgroups class). -/
def sgChar (c : Char) : Bool := wChar c || c = '-' || c = '/'

/-- Literal character: at most one way to match. -/
def litChar (c : Char) (s : List Char) : List (List Char) :=
  match s with
  | [] => []
  | x :: rest => if x = c then [rest] else []

/-- Greedy optional character `c?`: consuming alternative first. -/
def optChar (c : Char) (s : List Char) : List (List Char) :=
  match s with
  | [] => [s]
  | x :: rest => if x = c then [rest, s] else [s]

/-- Greedy plus over a character class, `[cls]+`: all nonempty prefixes of the
maximal run, longest first. -/
def greedyPlus (cls : Char → Bool) (s : List Char) : List (List Char × List Char) :=
  let r := (s.takeWhile cls).length
  (List.range r).map fun k => (s.take (r - k), s.drop (r - k))

/-- Lazy star over a character class, `[cls]*?`: all prefixes of the maximal
run, shortest first. -/
def lazyStar (cls : Char → Bool) (s : List Char) : List (List Char × List Char) :=
  (List.range ((s.takeWhile cls).length + 1)).map fun n => (s.take n, s.drop n)

/-- Ordered alternation of literal words (`issues|merge_requests|...`). -/
def litAlt (ws : List (List Char)) (s : List Char) : List (List Char × List Char) :=
  ws.filterMap fun w => if w.isPrefixOf s then some (w, s.drop w.length) else none

/-- Alternatives of the `type` group, in the order the pattern lists them. -/
def typeWords : List (List Char) :=
  ["issues".toList, "merge_requests".toList, "commit".toList,
   "pipelines".toList, "jobs".toList]

/-- Captures of the resource pattern. -/
structure ReCaps1 where
  team : List Char
  sub : List Char
  proj : List Char
  ty : List Char
  ident : List Char
deriving DecidableEq, Repr

/-- Captures of the project pattern. -/
structure ReCaps2 where
  team : List Char
  sub : List Char
  proj : List Char
deriving DecidableEq, Repr

/-- Trailing optional slash then end of string, shared by both patterns. -/
def reEnd (s : List Char) : List Unit :=
  (optChar '/' s).flatMap fun s1 => if s1 = [] then [()] else []

/-- The identifier group (word chars, greedy) then optional slash, end. -/
def reIdent (s : List Char) : List (List Char) :=
  (greedyPlus wChar s).flatMap fun p => (reEnd p.2).map fun _ => p.1

/-- A slash followed by the identifier suffix. -/
def reSlashIdent (s : List Char) : List (List Char) :=
  (litChar '/' s).flatMap fun s1 => reIdent s1

/-- The type keyword alternation followed by slash, identifier and the
pattern end. -/
def reTypeOn (s : List Char) : List (List Char × List Char) :=
  (litAlt typeWords s).flatMap fun p => (reSlashIdent p.2).map fun i => (p.1, i)

/-- Optional slash before the type keyword. -/
def reSlashType (s : List Char) : List (List Char × List Char) :=
  (optChar '/' s).flatMap fun s2 => reTypeOn s2

/-- Optional dash, then the optional slash and type suffix (the part after
the slash that follows the project group). -/
def reDashSlashType (s : List Char) : List (List Char × List Char) :=
  (optChar '-' s).flatMap fun s1 => reSlashType s1

/-- The literal slash after the project group and everything after it. -/
def reProjTail (s : List Char) : List (List Char × List Char) :=
  (litChar '/' s).flatMap fun s1 => reDashSlashType s1

/-- Suffix from the project group on: project, slash, optional dash,
optional slash, type and the rest. -/
def reProjOn (s : List Char) : List (List Char × List Char × List Char) :=
  (greedyPlus wdChar s).flatMap fun p => (reProjTail p.2).map fun q => (p.1, q)

/-- Optional slash between subgroups and project. -/
def reSubTail (s : List Char) : List (List Char × List Char × List Char) :=
  (optChar '/' s).flatMap fun s1 => reProjOn s1

/-- Suffix of pattern 1 from the subgroups group on: lazy subgroups,
optional slash, project, and the rest. -/
def reSubOn (s : List Char) : List (List Char × List Char × List Char × List Char) :=
  (lazyStar sgChar s).flatMap fun p => (reSubTail p.2).map fun q => (p.1, q)

/-- The slash after the team group and everything after it (pattern 1). -/
def pat1AfterTeam (s : List Char) : List (List Char × List Char × List Char × List Char) :=
  (litChar '/' s).flatMap fun s1 => reSubOn s1

/-- Pattern 1 from the team group on. -/
def pat1Body (s : List Char) : List ReCaps1 :=
  (greedyPlus wdChar s).flatMap fun p =>
    (pat1AfterTeam p.2).map fun q => ReCaps1.mk p.1 q.1 q.2.1 q.2.2.1 q.2.2.2

/-- Full resource pattern: slash, team, slash, lazy subgroups, optional
slash, project, slash, optional dash, optional slash, type keyword, slash,
identifier, optional slash, end.  All full matches in backtracking order. -/
def pat1Matches (s : List Char) : List ReCaps1 :=
  (litChar '/' s).flatMap fun s1 => pat1Body s1

/-- Project group then optional trailing slash, end (pattern 2 tail). -/
def reProjEnd (s : List Char) : List (List Char) :=
  (greedyPlus wdChar s).flatMap fun p => (reEnd p.2).map fun _ => p.1

/-- Optional slash between subgroups and project (pattern 2). -/
def reSubTail2 (s : List Char) : List (List Char) :=
  (optChar '/' s).flatMap fun s1 => reProjEnd s1

/-- Suffix of pattern 2 from the subgroups group on: lazy subgroups,
optional slash, project, optional trailing slash. -/
def reSubOn2 (s : List Char) : List (List Char × List Char) :=
  (lazyStar sgChar s).flatMap fun p => (reSubTail2 p.2).map fun q => (p.1, q)

/-- The slash after the team group and everything after it (pattern 2). -/
def pat2AfterTeam (s : List Char) : List (List Char × List Char) :=
  (litChar '/' s).flatMap fun s1 => reSubOn2 s1

/-- Pattern 2 from the team group on. -/
def pat2Body (s : List Char) : List ReCaps2 :=
  (greedyPlus wdChar s).flatMap fun p =>
    (pat2AfterTeam p.2).map fun q => ReCaps2.mk p.1 q.1 q.2

/-- Full project pattern: slash, team, slash, lazy subgroups, optional
slash, project, optional slash, end.  All full matches in backtracking
order. -/
def pat2Matches (s : List Char) : List ReCaps2 :=
  (litChar '/' s).flatMap fun s1 => pat2Body s1

/-- Python `str.split(sep)` with the single-character separator used by the
fragment handling (`fragment.split("_")`). -/
def splitOnCharAux (c : Char) : List Char → List Char → List (List Char)
  | [], acc => [acc.reverse]
  | x :: rest, acc =>
      if x = c then acc.reverse :: splitOnCharAux c rest []
      else splitOnCharAux c rest (x :: acc)

/-- Fragment split on underscores, Python `"..".split("_")` semantics. -/
def splitUnderscore (s : String) : List String :=
  (splitOnCharAux '_' s.toList []).map String.mk

/-- The `m.group("subgroups") or None` coercion: empty capture becomes None. -/
def emptyToNone (l : List Char) : Option String :=
  if l = [] then none else some (String.mk l)

/-- Continuation of `parse_path` once the resource pattern matched: fragment
promotion (`note = fragment.split("_")[1]` first, which can raise
`IndexError`, then the `PathType` conversion, which can raise `ValueError`). -/
def buildFromP1 (caps : ReCaps1) (fragment : Option String) : Except PyErr PathInfo :=
  let tyStr := String.mk caps.ty
  let base : String → Except PyErr PathInfo := fun t =>
    match pathTypeOfString t with
    | .error e => .error e
    | .ok pt =>
        .ok ⟨pt, String.mk caps.team, String.mk caps.proj,
             some (String.mk caps.ident), emptyToNone caps.sub, none⟩
  match fragment with
  | none => base tyStr
  | some f =>
      if f != "" then
        match (splitUnderscore f).get? 1 with
        | none => .error .indexError
        | some n =>
            match pathTypeOfString ("note_" ++ tyStr) with
            | .error e => .error e
            | .ok pt =>
                .ok ⟨pt, String.mk caps.team, String.mk caps.proj,
                     some (String.mk caps.ident), emptyToNone caps.sub, some n⟩
      else base tyStr

/-- Embedded `parse_path`: try the resource pattern, then the project
pattern, else `ValueError`. -/
def parse_path (path : String) (fragment : Option String) : Except PyErr PathInfo :=
  match (pat1Matches path.toList).head? with
  | some caps => buildFromP1 caps fragment
  | none =>
      match (pat2Matches path.toList).head? with
      | some caps =>
          .ok ⟨.PROJECT, String.mk caps.team, String.mk caps.proj,
               none, emptyToNone caps.sub, none⟩
      | none => .error (.valueError ("Cant parse path: " ++ path))

/-!
API access and attachment builders.
-/

/-- Fixed response of a successful unfurl invocation. -/
structure LambdaResponse where
  statusCode : Nat
  body : JVal
deriving Repr

/-- The acknowledgment constant `OK_RESPONSE`. -/
def OK_RESPONSE : LambdaResponse := ⟨204, .str ""⟩

/-- Issue state colour table. -/
def ISSUE_STATE_COLORS : List (String × String) :=
  [("opened", "#1aaa55"), ("closed", "#1f78d1")]

/-- Merge request state colour table. -/
def MR_STATE_COLORS : List (String × String) :=
  [("opened", "#1aaa55"), ("merged", "#1f78d1"), ("closed", "#db3b21")]

/-- CI status colour table. -/
def CI_STATE_COLORS : List (String × String) :=
  [("created", "#1f78d1"), ("pending", "#1f78d1"), ("running", "#1aaa55"),
   ("failed", "#db3b21"), ("success", "#1aaa55"), ("canceled", "#FDBF2C"),
   ("skipped", "#1f78d1"), ("manual", "#1f78d1")]

/-- Indexing a string-keyed dict with a JSON value (`TABLE[state]`): a
`KeyError` when the state is unknown or not a string. -/
def colorLookup (table : List (String × String)) (v : JVal) : Except PyErr String :=
  match v with
  | .str s =>
      match table.lookup s with
      | some c => .ok c
      | none => .error (.keyError s)
  | _ => .error (.keyError (pyStr v))

/-- The defaulting variant `TABLE.get(status, "")`. -/
def colorGet (table : List (String × String)) (v : JVal) : String :=
  match v with
  | .str s => (table.lookup s).getD ""
  | _ => ""

/-- Upstream HTTP response: status code plus decoded JSON body when the body
is valid JSON. -/
structure HttpResponse where
  status : Nat
  body : Option JVal

/-- The HTTP session: a GitLab API path maps to a response.  The `urljoin`
with the configured `GITLAB_URL` base is abstracted away; the api path is the
key. -/
abbrev Api := String → HttpResponse

/-- Embedded `get_data_from_api`: `raise_for_status` turns a 4xx or 5xx
status into an HTTP error, then the body must decode as JSON. -/
def get_data_from_api (api : Api) (api_path : String) : Except PyErr JVal :=
  let r := api api_path
  if 400 ≤ r.status && r.status < 600 then .error (.httpError r.status)
  else match r.body with
    | some j => .ok j
    | none => .error .jsonError

/-- Python `str()` of the optional identifier fields used in f-strings. -/
def optStr : Option String → String
  | some s => s
  | none => "None"

/-- Issue API path. -/
def issueApiPath (pi : PathInfo) : String :=
  "/api/v4/projects/" ++ pi.quoted_id ++ "/issues/" ++ optStr pi.identifier

/-- Issue note API path. -/
def issueNoteApiPath (pi : PathInfo) : String :=
  "/api/v4/projects/" ++ pi.quoted_id ++ "/issues/" ++ optStr pi.identifier
    ++ "/notes/" ++ optStr pi.note

/-- Merge request API path. -/
def mrApiPath (pi : PathInfo) : String :=
  "/api/v4/projects/" ++ pi.quoted_id ++ "/merge_requests/" ++ optStr pi.identifier

/-- Merge request note API path. -/
def mrNoteApiPath (pi : PathInfo) : String :=
  "/api/v4/projects/" ++ pi.quoted_id ++ "/merge_requests/" ++ optStr pi.identifier
    ++ "/notes/" ++ optStr pi.note

/-- Commit API path. -/
def commitApiPath (pi : PathInfo) : String :=
  "/api/v4/projects/" ++ pi.quoted_id ++ "/repository/commits/" ++ optStr pi.identifier

/-- Project API path. -/
def projectApiPath (pi : PathInfo) : String :=
  "/api/v4/projects/" ++ pi.quoted_id

/-- Pipeline API path. -/
def pipelineApiPath (pi : PathInfo) : String :=
  "/api/v4/projects/" ++ pi.quoted_id ++ "/pipelines/" ++ optStr pi.identifier

/-- Job API path. -/
def jobApiPath (pi : PathInfo) : String :=
  "/api/v4/projects/" ++ pi.quoted_id ++ "/jobs/" ++ optStr pi.identifier

/-- Embedded `get_issue_data`. -/
def get_issue_data (api : Api) (path_info : PathInfo) : Except PyErr JVal :=
  get_data_from_api api (issueApiPath path_info)

/-- Embedded `get_merge_request_data`. -/
def get_merge_request_data (api : Api) (path_info : PathInfo) : Except PyErr JVal :=
  get_data_from_api api (mrApiPath path_info)

/-- One entry of an attachment field list; `short` is the literal string
"true" in the source dicts. -/
structure AttachField where
  title : String
  value : JVal
  short : String
deriving Repr

/-- Field constructor helper. -/
def mkField (t : String) (v : JVal) : AttachField := ⟨t, v, "true"⟩

/-- The rendered attachment.  Fields the source dict omits for a given
builder are `none`; `ts` carries the raw `created_at` string, abstracting
only arrow's epoch conversion, which no claim inspects. -/
structure Attachment where
  author_name : Option JVal
  author_link : Option JVal
  author_icon : Option JVal
  thumb_url : Option JVal
  title : JVal
  title_link : Option String
  fields : Option (List AttachField)
  text : Option String
  color : Option String
  ts : String
  footer : String
deriving Repr

/-- The Python idiom `data["description"] or ""`: the value when truthy,
else the empty string. -/
def pyOrEmpty (v : JVal) : JVal :=
  if v.truthy then v else .str ""

/-- Format the assignee list: `", ".join(format_user(a, warn_blocked=True)
for a in assignees)`. -/
def formatUsersWarn : List JVal → Except PyErr (List String)
  | [] => .ok []
  | u :: rest => do
      let s ← format_user u true
      let ss ← formatUsersWarn rest
      pure (s :: ss)

/-- Join the assignees; iterating a non-list raises `TypeError`. -/
def joinAssignees (v : JVal) : Except PyErr String :=
  match v with
  | .arr xs => do
      let ss ← formatUsersWarn xs
      pure (String.intercalate ", " ss)
  | _ => .error .typeError

/-- Embedded `get_issues_info`.  The source's `except IndexError` handler
re-raises unchanged, so the try body is inlined. -/
def get_issues_info (api : Api) (path_info : PathInfo) : Except PyErr Attachment := do
  let data ← get_issue_data api path_info
  let titleJ ← dictGet data "title"
  let title0 ← pyStripJ titleJ
  let descJ ← dictGet data "description"
  let description := pyOrEmpty descJ
  let due_date ← dictGet data "due_date"
  let milestone ← dictGet data "milestone"
  let assigneesJ ← dictGet data "assignees"
  let assignee ← if assigneesJ.truthy then joinAssignees assigneesJ else pure "_nobody_"
  let state ← dictGet data "state"
  let title := if jEqStr state "opened" then title0
               else title0 ++ " (" ++ pyStr state ++ ")"
  let fields := [mkField "Assignee" (.str assignee)]
  let fields := if due_date.truthy then
      fields ++ [mkField "Due date" (.str (slack_formatted_date (pyStr due_date)))]
    else fields
  let fields ← if milestone.truthy then do
      let wu ← dictGet milestone "web_url"
      let mt ← dictGet milestone "title"
      pure (fields ++ [mkField "Milestone" (.str ("<" ++ pyStr wu ++ "|" ++ pyStr mt ++ ">"))])
    else pure fields
  let author ← dictGet data "author"
  let author_name ← format_user author false
  let author_link ← dictGet author "web_url"
  let author_icon ← dictGet author "avatar_url"
  let text ← prepare_description description 300
  let color ← colorLookup ISSUE_STATE_COLORS state
  let created ← dictGet data "created_at"
  pure ⟨some (.str author_name), some author_link, some author_icon, none,
        .str title, none, some fields, some text, some color, pyStr created, "Issue"⟩

/-- Embedded `get_note_issues_info` (fetches the note, then the parent
issue; `except IndexError` re-raises unchanged). -/
def get_note_issues_info (api : Api) (path_info : PathInfo) : Except PyErr Attachment := do
  let data ← get_data_from_api api (issueNoteApiPath path_info)
  let issue_data ← get_issue_data api path_info
  let itJ ← dictGet issue_data "title"
  let issue_title ← pyStripJ itJ
  let issue_state ← dictGet issue_data "state"
  let body ← dictGet data "body"
  let author ← dictGet data "author"
  let author_name ← format_user author true
  let author_link ← dictGet author "web_url"
  let author_icon ← dictGet author "avatar_url"
  let bodyS ← pyStripJ body
  let text ← prepare_description (.str bodyS) 300
  let color ← colorLookup ISSUE_STATE_COLORS issue_state
  let created ← dictGet data "created_at"
  pure ⟨some (.str author_name), some author_link, some author_icon, none,
        .str ("Comment on issue: " ++ issue_title), none, none, some text,
        some color, pyStr created, "Issue note"⟩

/-- Embedded `get_merge_requests_info`. -/
def get_merge_requests_info (api : Api) (path_info : PathInfo) : Except PyErr Attachment := do
  let data ← get_merge_request_data api path_info
  let titleJ ← dictGet data "title"
  let title0 ← pyStripJ titleJ
  let descJ ← dictGet data "description"
  let description := pyOrEmpty descJ
  let assigneeJ ← dictGet data "assignee"
  let assignee ← if assigneeJ.truthy then format_user assigneeJ true else pure "_nobody_"
  let milestone ← dictGet data "milestone"
  let state ← dictGet data "state"
  let diffs ← dictGet data "changes_count"
  let title := if jEqStr state "opened" then title0
               else title0 ++ " (" ++ pyStr state ++ ")"
  let fields := [mkField "Assignee" (.str assignee)]
  let fields := if diffs.truthy then fields ++ [mkField "Diffs" diffs] else fields
  let fields ← if milestone.truthy then do
      let wu ← dictGet milestone "web_url"
      let mt ← dictGet milestone "title"
      pure (fields ++ [mkField "Milestone" (.str ("<" ++ pyStr wu ++ "|" ++ pyStr mt ++ ">"))])
    else pure fields
  let author ← dictGet data "author"
  let author_name ← format_user author false
  let author_link ← dictGet author "web_url"
  let author_icon ← dictGet author "avatar_url"
  let text ← prepare_description description 100
  let color ← colorLookup MR_STATE_COLORS state
  let created ← dictGet data "created_at"
  pure ⟨some (.str author_name), some author_link, some author_icon, none,
        .str title, none, some fields, some text, some color, pyStr created,
        "Merge Request"⟩

/-- Embedded `get_note_merge_requests_info`.  Note: the body is passed to
`textwrap.shorten` directly, without `strip_html_tags`. -/
def get_note_merge_requests_info (api : Api) (path_info : PathInfo) : Except PyErr Attachment := do
  let data ← get_data_from_api api (mrNoteApiPath path_info)
  let mr_data ← get_merge_request_data api path_info
  let mtJ ← dictGet mr_data "title"
  let mr_title ← pyStripJ mtJ
  let mr_state ← dictGet mr_data "state"
  let body ← dictGet data "body"
  let author ← dictGet data "author"
  let author_name ← format_user author false
  let author_link ← dictGet author "web_url"
  let author_icon ← dictGet author "avatar_url"
  let bodyS ← pyStripJ body
  let text := pyShorten 300 bodyS
  let color ← colorLookup MR_STATE_COLORS mr_state
  let created ← dictGet data "created_at"
  pure ⟨some (.str author_name), some author_link, some author_icon, none,
        .str ("Comment on merge request: " ++ mr_title), none, none, some text,
        some color, pyStr created, "Merge Request Note"⟩

/-- The `try:` block of `get_commit_info`. -/
def commitTryBody (data : JVal) : Except PyErr (String × String) := do
  let tJ ← dictGet data "title"
  let title ← pyStripJ tJ
  let aJ ← dictGet data "author_name"
  let author_name ← pyStripJ aJ
  pure (title, author_name)

/-- Embedded `get_commit_info`.  Its `except IndexError` handler swallows the
error without re-raising; the subsequent dict literal would then hit the
unbound local `title`, a `NameError`.  Dict access raises `KeyError`, never
`IndexError`, so the branch is inert. -/
def get_commit_info (api : Api) (path_info : PathInfo) : Except PyErr Attachment := do
  let data ← get_data_from_api api (commitApiPath path_info)
  match commitTryBody data with
  | .error .indexError => .error .nameError
  | .error e => .error e
  | .ok (title, author_name) => do
      let created ← dictGet data "created_at"
      pure ⟨some (.str author_name), none, none, none, .str title, none, none,
            none, none, pyStr created, "Commit"⟩

/-- The `try:` block of `get_project_info` (the builder has the same inert
`except IndexError` shape as `get_commit_info`: on that dead branch the dict
entries before "text" evaluate, then the unbound `description` raises
`NameError`). -/
def projectTryBody (data : JVal) : Except PyErr JVal := do
  let descJ ← dictGet data "description"
  pure (pyOrEmpty descJ)

/-- Embedded `get_project_info` body proper. -/
def get_project_info (api : Api) (path_info : PathInfo) : Except PyErr Attachment := do
  let data ← get_data_from_api api (projectApiPath path_info)
  match projectTryBody data with
  | .error .indexError => do
      let ns ← dictGet data "namespace"
      let _ ← dictGet ns "name"
      let _ ← dictGet ns "full_path"
      let _ ← dictGet data "avatar_url"
      let _ ← dictGet data "name"
      .error .nameError
  | .error e => .error e
  | .ok description => do
      let ns ← dictGet data "namespace"
      let nsName ← dictGet ns "name"
      let nsPath ← dictGet ns "full_path"
      let avatar ← dictGet data "avatar_url"
      let name ← dictGet data "name"
      let text ← prepare_description description 100
      let created ← dictGet data "created_at"
      pure ⟨some nsName, some (.str (pyStr nsPath)), none, some avatar, name,
            none, none, some text, none, pyStr created, "Project"⟩

/-- The `try:` block of `get_pipelines_info` (the builder's `except
IndexError` branch, inert for dict access, would evaluate the author entries
then hit the unbound `pipeline_id`, a `NameError`). -/
def pipelinesTryBody (data : JVal) : Except PyErr (JVal × List AttachField × JVal) := do
  let status ← dictGet data "status"
  let ref ← dictGet data "ref"
  let fields := [mkField "Status" status, mkField "Ref" ref]
  let started ← dictGet data "started_at"
  let finished ← dictGet data "finished_at"
  let fields := if started.truthy then
      fields ++ [mkField "Started at" (.str (slack_formatted_datetime (pyStr started)))]
    else fields
  let fields := if finished.truthy then
      fields ++ [mkField "Finished at" (.str (slack_formatted_datetime (pyStr finished)))]
    else fields
  let pid ← dictGet data "id"
  pure (status, fields, pid)

/-- Embedded `get_pipelines_info` body proper. -/
def get_pipelines_info (api : Api) (path_info : PathInfo) : Except PyErr Attachment := do
  let data ← get_data_from_api api (pipelineApiPath path_info)
  match pipelinesTryBody data with
  | .error .indexError => do
      let user ← dictGet data "user"
      let _ ← format_user user false
      let _ ← dictGet user "web_url"
      let _ ← dictGet user "avatar_url"
      .error .nameError
  | .error e => .error e
  | .ok (status, fields, pid) => do
      let user ← dictGet data "user"
      let author_name ← format_user user false
      let wu ← dictGet user "web_url"
      let av ← dictGet user "avatar_url"
      let created ← dictGet data "created_at"
      pure ⟨some (.str author_name), some wu, some av, none,
            .str ("Pipeline #" ++ pyStr pid), none, some fields, none,
            some (colorGet CI_STATE_COLORS status), pyStr created, "Pipeline"⟩

/-- The `try:` block of `get_jobs_info` (the builder has the same shape as
`get_pipelines_info`; its footer is the literal "Pipeline Job"). -/
def jobsTryBody (data : JVal) : Except PyErr (JVal × List AttachField × JVal × JVal) := do
  let status ← dictGet data "status"
  let stage ← dictGet data "stage"
  let fields := [mkField "Status" status, mkField "Stage" stage]
  let started ← dictGet data "started_at"
  let finished ← dictGet data "finished_at"
  let duration ← dictGet data "duration"
  let fields := if started.truthy then
      fields ++ [mkField "Started at" (.str (slack_formatted_datetime (pyStr started)))]
    else fields
  let fields := if finished.truthy then
      fields ++ [mkField "Finished at" (.str (slack_formatted_datetime (pyStr finished)))]
    else fields
  let fields := if duration.truthy then fields ++ [mkField "Duration" duration]
    else fields
  let jid ← dictGet data "id"
  let jname ← dictGet data "name"
  pure (status, fields, jid, jname)

/-- Embedded `get_jobs_info` body proper. -/
def get_jobs_info (api : Api) (path_info : PathInfo) : Except PyErr Attachment := do
  let data ← get_data_from_api api (jobApiPath path_info)
  match jobsTryBody data with
  | .error .indexError => do
      let user ← dictGet data "user"
      let _ ← format_user user false
      let _ ← dictGet user "web_url"
      let _ ← dictGet user "avatar_url"
      .error .nameError
  | .error e => .error e
  | .ok (status, fields, jid, jname) => do
      let user ← dictGet data "user"
      let author_name ← format_user user false
      let wu ← dictGet user "web_url"
      let av ← dictGet user "avatar_url"
      let created ← dictGet data "created_at"
      pure ⟨some (.str author_name), some wu, some av, none,
            .str ("Job #" ++ pyStr jid ++ ": " ++ pyStr jname), none,
            some fields, none, some (colorGet CI_STATE_COLORS status),
            pyStr created, "Pipeline Job"⟩

/-- Embedded `HANDLERS` table / `get_handler`.  The table covers every
`PathType` member, so the `ValueError` branch of `get_handler` is
unreachable and the lookup is total. -/
def get_handler (t : PathType) : Api → PathInfo → Except PyErr Attachment :=
  match t with
  | .COMMIT => get_commit_info
  | .ISSUE => get_issues_info
  | .JOB => get_jobs_info
  | .MERGE_REQUEST => get_merge_requests_info
  | .PIPELINE => get_pipelines_info
  | .PROJECT => get_project_info
  | .NOTE_ISSUE => get_note_issues_info
  | .NOTE_MERGE_REQUESTS => get_note_merge_requests_info

/-!
Webhook handler.  The transport envelope's JSON deserialisation
(`json.loads(event["body"])`) and the Slack client are outside the modelled
core (spec sections 1 and 6); `unfurl` takes the decoded request JSON and
returns the response plus the unfurls it would send, in link order.
-/

/-- Split a character list at the first occurrence of `c` (separator
dropped); the second component is empty when `c` does not occur. -/
def splitFirst : List Char → Char → List Char × List Char
  | [], _ => ([], [])
  | x :: rest, c =>
      if x = c then ([], rest)
      else
        let p := splitFirst rest c
        (x :: p.1, p.2)

/-- Scheme characters after the first (letters, digits, plus, dash, dot). -/
def schemeChar (c : Char) : Bool :=
  c.isAlphanum || c = '+' || c = '-' || c = '.'

/-- Drop a leading `scheme:` prefix when present (urlsplit's scheme rule). -/
def stripScheme (s : List Char) : List Char :=
  let pre := s.takeWhile (fun c => c ≠ ':')
  if pre.length < s.length ∧ pre ≠ [] ∧ pre.headI.isAlpha ∧ pre.all schemeChar then
    s.drop (pre.length + 1)
  else s

/-- Parsed URL components used by the webhook loop. -/
structure UrlParts where
  path : String
  query : String
  fragment : String
deriving Repr

/-- Embedded `urllib.parse.urlparse`, restricted to the fragment, query and
path components the loop reads: fragment split first, then the scheme and
the authority (up to the next slash or question mark) are dropped, then the
query is split off. -/
def pyUrlparse (url : String) : UrlParts :=
  let p1 := splitFirst url.toList '#'
  let u2 := stripScheme p1.1
  let u3 := if u2.take 2 = ['/', '/'] then
      (u2.drop 2).dropWhile (fun c => !(c = '/' || c = '?'))
    else u2
  let p2 := splitFirst u3 '?'
  ⟨String.mk p2.1, String.mk p2.2, String.mk p1.2⟩

/-- Substring test (Python `"no_unfurl" in url.query`). -/
def infixSearch (needle : List Char) : List Char → Bool
  | [] => needle.isPrefixOf []
  | c :: rest => needle.isPrefixOf (c :: rest) || infixSearch needle rest

/-- String containment. -/
def strContains (hay sub : String) : Bool :=
  infixSearch sub.toList hay.toList

/-- The backslash scrubbing the loop applies to the raw url before parsing
(`raw_url.replace` of every backslash with the empty string). -/
def cleanedUrl (s : String) : String :=
  String.mk (s.toList.filter (fun c => c ≠ '\\'))

/-- Copy of an attachment with `title_link` set (the caller-side mutation
`attachment["title_link"] = raw_url`). -/
def withTitleLink (a : Attachment) (l : String) : Attachment :=
  ⟨a.author_name, a.author_link, a.author_icon, a.thumb_url, a.title, some l,
   a.fields, a.text, a.color, a.ts, a.footer⟩

/-- The per-link loop of `unfurl`.  Only `ValueError` is caught (around
`parse_path` and `get_handler`); any other exception propagates and aborts
the whole invocation.  The embedded `get_handler` is total, so its
`ValueError` branch never fires. -/
def processLinks (api : Api) (request : JVal) : List JVal → Except PyErr (List (String × Attachment))
  | [] => .ok []
  | link :: rest => do
      let rawJ ← dictGet link "url"
      let raw ← (match rawJ with
        | .str s => .ok s
        | _ => .error .attributeError)
      let url := pyUrlparse (cleanedUrl raw)
      if strContains url.query "no_unfurl" then processLinks api request rest
      else
        match parse_path url.path (some url.fragment) with
        | .error (.valueError _) => processLinks api request rest
        | .error e => .error e
        | .ok path_info => do
            let attachment ← get_handler path_info.type api path_info
            let attachment := withTitleLink attachment raw
            let ev ← dictGet request "event"
            let _ ← dictGet ev "channel"
            let _ ← dictGet ev "message_ts"
            let sent ← processLinks api request rest
            pure ((raw, attachment) :: sent)

/-- Embedded `unfurl` handler body (after JSON deserialisation): the
url-verification echo, then the link loop, then the acknowledgment. -/
def unfurl (api : Api) (request : JVal) :
    Except PyErr (LambdaResponse × List (String × Attachment)) := do
  let ty ← dictGet request "type"
  if jEqStr ty "url_verification" then do
    let ch ← dictGet request "challenge"
    pure (⟨200, ch⟩, [])
  else do
    let ev ← dictGet request "event"
    let linksJ ← dictGet ev "links"
    let links ← (match linksJ with
      | .arr xs => .ok xs
      | _ => .error .typeError)
    let sent ← processLinks api request links
    pure (OK_RESPONSE, sent)

/-- Request constructor used by the theorems: an event-callback payload with
the given links, channel and message timestamp. -/
def mkRequest (links : List JVal) (channel mts : JVal) : JVal :=
  .obj [("type", .str "event_callback"),
        ("event", .obj [("links", .arr links), ("channel", channel),
                        ("message_ts", mts)])]

/-!
Concrete sample data used by witnesses and counterexamples.
-/

/-- A sample (active) user object. -/
def sampleUser : JVal :=
  .obj [("username", .str "alice"), ("state", .str "active"),
        ("web_url", .str "https://gl/alice"), ("avatar_url", .str "https://gl/a.png")]

/-- A sample issue response with every key the issue builder reads. -/
def sampleIssueData : JVal :=
  .obj [("title", .str "Add tests"), ("description", .str "Some description"),
        ("due_date", .null), ("milestone", .null), ("assignees", .arr []),
        ("state", .str "opened"), ("author", sampleUser),
        ("created_at", .str "2018-01-01T00:00:00Z")]

/-- Sample reference to issue 1 of team/proj. -/
def sampleIssuePi : PathInfo := ⟨.ISSUE, "team", "proj", some "1", none, none⟩

/-- Session serving only issue 1 of team/proj; everything else is 404. -/
def sampleIssueApi : Api := fun p =>
  if p = "/api/v4/projects/team%2Fproj/issues/1" then ⟨200, some sampleIssueData⟩
  else ⟨404, none⟩

/-- Session where every request is a 404 with an undecodable body. -/
def sampleBadApi : Api := fun _ => ⟨404, none⟩

/-- A sample merge request note body containing markup. -/
def sampleMrNoteData : JVal :=
  .obj [("body", .str "<b>hi</b>"), ("author", sampleUser),
        ("created_at", .str "2018-01-01T00:00:00Z")]

/-- A sample merge request response. -/
def sampleMrData : JVal :=
  .obj [("title", .str "Fix"), ("state", .str "opened"), ("description", .str ""),
        ("assignee", .null), ("milestone", .null), ("changes_count", .str "1"),
        ("author", sampleUser), ("created_at", .str "2018-01-01T00:00:00Z")]

/-- Sample reference to note 7 on merge request 5 of team/proj. -/
def sampleMrNotePi : PathInfo := ⟨.NOTE_MERGE_REQUESTS, "team", "proj", some "5", none, some "7"⟩

/-- Session serving merge request 5 of team/proj and its note 7. -/
def sampleMrNoteApi : Api := fun p =>
  if p = "/api/v4/projects/team%2Fproj/merge_requests/5/notes/7" then ⟨200, some sampleMrNoteData⟩
  else if p = "/api/v4/projects/team%2Fproj/merge_requests/5" then ⟨200, some sampleMrData⟩
  else ⟨404, none⟩

/-- A sample job response with every key the job builder reads. -/
def sampleJobData : JVal :=
  .obj [("status", .str "success"), ("stage", .str "build"), ("started_at", .null),
        ("finished_at", .null), ("duration", .null), ("id", .num 9),
        ("name", .str "compile"), ("user", sampleUser),
        ("created_at", .str "2018-01-01T00:00:00Z")]

/-- Sample reference to job 9 of team/proj. -/
def sampleJobPi : PathInfo := ⟨.JOB, "team", "proj", some "9", none, none⟩

/-- Session serving only job 9 of team/proj. -/
def sampleJobApi : Api := fun p =>
  if p = "/api/v4/projects/team%2Fproj/jobs/9" then ⟨200, some sampleJobData⟩
  else ⟨404, none⟩

/-!
Claim C10: a resource path with a fragment containing no underscore raises
IndexError, which the webhook loop (catching only ValueError) does not
swallow.
-/

/-- C10: on path "/team/proj/issues/1" with fragment "x" the classifier
raises `IndexError` (not the `ValueError` the loop catches), and an event
containing that link makes the whole `unfurl` invocation abort with that
`IndexError` instead of acknowledging. -/
theorem fragment_without_underscore_index_error :
    parse_path "/team/proj/issues/1" (some "x") = .error .indexError ∧
    unfurl sampleBadApi
      (mkRequest [.obj [("url", .str "https://gitlab.com/team/proj/issues/1#x")]]
        (.str "C1") (.str "111.222"))
      = .error .indexError := by
  constructor
  · rfl
  · rfl

/-!
Claim C3: fragment promotion and note id extraction.
-/

/-- C3 counterexample: with fragment "note_746_624" the classifier stores
note id "746" — the text between the first and second underscore — not
"746_624", the text after the first underscore with later underscores
included, as the claim states. -/
theorem parse_path_note_extra_underscore :
    parse_path "/kiwi/com/issues/37" (some "note_746_624") =
      .ok ⟨.NOTE_ISSUE, "kiwi", "com", some "37", none, some "746"⟩ ∧
    ("746" : String) ≠ "746_624" := by
  exact ⟨rfl, by decide⟩

/-- C3 amended: when the resource pattern matches with type `issues` or
`merge_requests` and a non-empty fragment splits on underscores into at
least two parts, the kind is promoted to the corresponding Note variant and
the note id is the second underscore-separated part (the text between the
first and second underscore; text after further underscores is dropped).
With fragments on the other three types the enum conversion fails, and with
no underscore in the fragment the split indexing fails. -/
theorem parse_path_note_promotion :
    ∀ (p f : String) (caps : ReCaps1) (a b : String) (rest : List String),
      (pat1Matches p.toList).head? = some caps →
      (caps.ty = "issues".toList ∨ caps.ty = "merge_requests".toList) →
      f ≠ "" →
      splitUnderscore f = a :: b :: rest →
      parse_path p (some f) =
        .ok ⟨if caps.ty = "issues".toList then .NOTE_ISSUE else .NOTE_MERGE_REQUESTS,
             String.mk caps.team, String.mk caps.proj, some (String.mk caps.ident),
             emptyToNone caps.sub, some b⟩ := by
  intro p f caps a b rest h1 hty hf hsplit
  have hne : (f != "") = true := by
    simp only [bne_iff_ne, ne_eq]
    exact hf
  have hp : parse_path p (some f) = buildFromP1 caps (some f) := by
    unfold parse_path
    rw [h1]
  rw [hp]
  simp only [buildFromP1, hne, hsplit, if_true, List.get?]
  rcases hty with h | h <;> rw [h] <;> rfl

/-- C3 witness at the spec's own example. -/
theorem parse_path_note_promotion_witness :
    parse_path "/kiwi/com/issues/37" (some "note_746624") =
      .ok ⟨.NOTE_ISSUE, "kiwi", "com", some "37", none, some "746624"⟩ := by
  have h := parse_path_note_promotion "/kiwi/com/issues/37" "note_746624"
    ⟨"kiwi".toList, [], "com".toList, "issues".toList, "37".toList⟩
    "note" "746624" [] rfl (Or.inl rfl) (by decide) rfl
  simpa using h

/-!
Claim C4: the footer table.
-/

/-- Footer literal of each resource kind as the code builds it; the job
builder uses "Pipeline Job", not the "Job" of the claim. -/
def footerOf : PathType → String
  | .ISSUE => "Issue"
  | .MERGE_REQUEST => "Merge Request"
  | .COMMIT => "Commit"
  | .PROJECT => "Project"
  | .PIPELINE => "Pipeline"
  | .JOB => "Pipeline Job"
  | .NOTE_ISSUE => "Issue note"
  | .NOTE_MERGE_REQUESTS => "Merge Request Note"

/-- C4 counterexample: the job builder's footer is the literal
"Pipeline Job", not "Job" as the claim's table states. -/
theorem job_footer_not_job :
    (get_jobs_info sampleJobApi sampleJobPi).map Attachment.footer = .ok "Pipeline Job" ∧
    ("Pipeline Job" : String) ≠ "Job" := by
  exact ⟨rfl, by decide⟩

/-- C4 amended: every attachment a handler returns carries the fixed footer
of its kind, per the table `footerOf` (which differs from the claim's table
only at Job, whose footer is "Pipeline Job"). -/
theorem attachment_footer_table :
    ∀ (t : PathType) (api : Api) (pi : PathInfo) (a : Attachment),
      get_handler t api pi = .ok a → a.footer = footerOf t := by
  intro t api pi a h
  cases t <;>
    (simp only [get_handler, get_commit_info, get_issues_info, get_jobs_info,
      get_merge_requests_info, get_pipelines_info, get_project_info,
      get_note_issues_info, get_note_merge_requests_info,
      bind, Except.bind, pure, Except.pure] at h
     repeat any_goals split at h) <;>
    first
      | exact Except.noConfusion h
      | (injection h with h2; subst h2; rfl)

/-- The job attachment built from the sample job data. -/
def sampleJobAttachment : Attachment :=
  ⟨some (.str "alice"), some (.str "https://gl/alice"), some (.str "https://gl/a.png"),
   none, .str "Job #9: compile", none,
   some [mkField "Status" (.str "success"), mkField "Stage" (.str "build")],
   none, some "#1aaa55", "2018-01-01T00:00:00Z", "Pipeline Job"⟩

/-- C4 witness: the footer theorem applied to a concrete job build. -/
theorem attachment_footer_table_witness :
    sampleJobAttachment.footer = footerOf .JOB :=
  attachment_footer_table .JOB sampleJobApi sampleJobPi sampleJobAttachment rfl

/-!
Claim C7: the qualified project identifier.
-/

/-- Percent-encoding distributes over concatenation. -/
theorem pyQuote_append (a b : String) : pyQuote (a ++ b) = pyQuote a ++ pyQuote b := by
  cases a with
  | mk la =>
    cases b with
    | mk lb =>
      show String.mk ((la ++ lb).flatMap _) = String.mk (la.flatMap _) ++ String.mk (lb.flatMap _)
      rw [List.append_bind]
      rfl

/-- C7: the qualified identifier is the once-applied empty-safe-set percent
encoding of the slash-join of team, subgroups and project: each joining
slash encodes to "%2F" around the individually encoded components, and the
subgroups block is dropped when absent; the two examples of the claim
evaluate as stated. -/
theorem quoted_id_percent_encoding :
    (∀ (t : PathType) (id n : Option String) (team proj sub : String), sub ≠ "" →
      PathInfo.quoted_id ⟨t, team, proj, id, some sub, n⟩ =
        pyQuote team ++ "%2F" ++ pyQuote sub ++ "%2F" ++ pyQuote proj) ∧
    (∀ (t : PathType) (id n : Option String) (team proj : String),
      PathInfo.quoted_id ⟨t, team, proj, id, none, n⟩ =
        pyQuote team ++ "%2F" ++ pyQuote proj) ∧
    PathInfo.quoted_id ⟨.PROJECT, "games", "doom", none, none, none⟩ = "games%2Fdoom" ∧
    PathInfo.quoted_id ⟨.PROJECT, "heroes", "pool", none, some "d/e/a/d", none⟩ =
      "heroes%2Fd%2Fe%2Fa%2Fd%2Fpool" := by
  refine ⟨?_, ?_, rfl, rfl⟩
  · intro t id n team proj sub hs
    have ht : optStrTruthy (some sub) = true := by
      simp only [optStrTruthy, bne_iff_ne, ne_eq]
      exact hs
    unfold PathInfo.quoted_id
    rw [ht]
    simp only [if_true, Option.getD]
    rw [show team ++ "/" ++ sub ++ "/" ++ proj = ((((team ++ "/") ++ sub) ++ "/") ++ proj) from rfl,
        pyQuote_append, pyQuote_append, pyQuote_append, pyQuote_append]
    rfl
  · intro t id n team proj
    unfold PathInfo.quoted_id
    simp only [optStrTruthy, Bool.false_eq_true, if_false]
    rw [show team ++ "/" ++ proj = ((team ++ "/") ++ proj) from rfl,
        pyQuote_append, pyQuote_append]
    rfl

/-- C7 witness: the subgroups equation applied at the claim's nested
example. -/
theorem quoted_id_percent_encoding_witness :
    PathInfo.quoted_id ⟨.PROJECT, "heroes", "pool", none, some "d/e/a/d", none⟩ =
      pyQuote "heroes" ++ "%2F" ++ pyQuote "d/e/a/d" ++ "%2F" ++ pyQuote "pool" :=
  quoted_id_percent_encoding.1 .PROJECT none none "heroes" "pool" "d/e/a/d" (by decide)

/-!
Claim C9: invariants of successfully classified references.
-/

/-- An alternation match takes its word from the word list. -/
theorem mem_litAlt (ws : List (List Char)) (s : List Char)
    (p : List Char × List Char) (h : p ∈ litAlt ws s) : p.1 ∈ ws := by
  simp only [litAlt, List.mem_filterMap] at h
  obtain ⟨w, hw, hcond⟩ := h
  split at hcond
  · cases hcond
    exact hw
  · cases hcond

/-- The type capture of the type suffix comes from `typeWords`. -/
theorem mem_reTypeOn (s : List Char) (p : List Char × List Char)
    (h : p ∈ reTypeOn s) : p.1 ∈ typeWords := by
  simp only [reTypeOn, List.mem_flatMap, List.mem_map] at h
  obtain ⟨q, hq, r, _, heq⟩ := h
  have := mem_litAlt typeWords s q hq
  rw [← heq]
  exact this

/-- Same, through the optional slash. -/
theorem mem_reSlashType (s : List Char) (p : List Char × List Char)
    (h : p ∈ reSlashType s) : p.1 ∈ typeWords := by
  simp only [reSlashType, List.mem_flatMap] at h
  obtain ⟨s2, _, hp⟩ := h
  exact mem_reTypeOn s2 p hp

/-- Same, through the optional dash. -/
theorem mem_reDashSlashType (s : List Char) (p : List Char × List Char)
    (h : p ∈ reDashSlashType s) : p.1 ∈ typeWords := by
  simp only [reDashSlashType, List.mem_flatMap] at h
  obtain ⟨s1, _, hp⟩ := h
  exact mem_reSlashType s1 p hp

/-- Same, through the slash after the project group. -/
theorem mem_reProjTail (s : List Char) (p : List Char × List Char)
    (h : p ∈ reProjTail s) : p.1 ∈ typeWords := by
  simp only [reProjTail, List.mem_flatMap] at h
  obtain ⟨s1, _, hp⟩ := h
  exact mem_reDashSlashType s1 p hp

/-- Same, through the project group. -/
theorem mem_reProjOn (s : List Char) (p : List Char × List Char × List Char)
    (h : p ∈ reProjOn s) : p.2.1 ∈ typeWords := by
  simp only [reProjOn, List.mem_flatMap, List.mem_map] at h
  obtain ⟨q, _, r, hr, heq⟩ := h
  have := mem_reProjTail q.2 r hr
  rw [← heq]
  exact this

/-- Same, through the optional slash after the subgroups. -/
theorem mem_reSubTail (s : List Char) (p : List Char × List Char × List Char)
    (h : p ∈ reSubTail s) : p.2.1 ∈ typeWords := by
  simp only [reSubTail, List.mem_flatMap] at h
  obtain ⟨s1, _, hp⟩ := h
  exact mem_reProjOn s1 p hp

/-- Same, through the subgroups group. -/
theorem mem_reSubOn (s : List Char)
    (p : List Char × List Char × List Char × List Char)
    (h : p ∈ reSubOn s) : p.2.2.1 ∈ typeWords := by
  simp only [reSubOn, List.mem_flatMap, List.mem_map] at h
  obtain ⟨q, _, r, hr, heq⟩ := h
  have := mem_reSubTail q.2 r hr
  rw [← heq]
  exact this

/-- Same, through the slash after the team group. -/
theorem mem_pat1AfterTeam (s : List Char)
    (p : List Char × List Char × List Char × List Char)
    (h : p ∈ pat1AfterTeam s) : p.2.2.1 ∈ typeWords := by
  simp only [pat1AfterTeam, List.mem_flatMap] at h
  obtain ⟨s1, _, hp⟩ := h
  exact mem_reSubOn s1 p hp

/-- Same, through the team group. -/
theorem mem_pat1Body (s : List Char) (caps : ReCaps1)
    (h : caps ∈ pat1Body s) : caps.ty ∈ typeWords := by
  simp only [pat1Body, List.mem_flatMap, List.mem_map] at h
  obtain ⟨q, _, r, hr, heq⟩ := h
  have := mem_pat1AfterTeam q.2 r hr
  rw [← heq]
  exact this

/-- Every match of the resource pattern captures one of the five type
keywords. -/
theorem mem_pat1_ty (s : List Char) (caps : ReCaps1)
    (h : caps ∈ pat1Matches s) : caps.ty ∈ typeWords := by
  simp only [pat1Matches, List.mem_flatMap] at h
  obtain ⟨s1, _, hp⟩ := h
  exact mem_pat1Body s1 caps hp

/-- Invariants of the record `buildFromP1` constructs, for any captures whose
type field is one of the five keywords the pattern can produce. -/
theorem buildFromP1_invariants (caps : ReCaps1) (frag : Option String) (r : PathInfo)
    (hty : caps.ty ∈ typeWords) (h : buildFromP1 caps frag = .ok r) :
    ((r.type = .PROJECT ↔ r.identifier = none ∧ r.note = none) ∧
     ((r.type = .NOTE_ISSUE ∨ r.type = .NOTE_MERGE_REQUESTS) ↔ r.note ≠ none)) := by
  simp only [typeWords, List.mem_cons, List.not_mem_nil, or_false] at hty
  unfold buildFromP1 at h
  cases frag with
  | none =>
    dsimp only at h
    cases hpt : pathTypeOfString (String.mk caps.ty) with
    | error e =>
      rw [hpt] at h
      exact Except.noConfusion h
    | ok pt =>
      rw [hpt] at h
      injection h with h2
      subst h2
      rcases hty with h5 | h5 | h5 | h5 | h5 <;> rw [h5] at hpt <;>
        injection hpt with h6 <;> rw [← h6] <;> simp
  | some f =>
    dsimp only at h
    split at h
    case _ =>
      cases hsp : (splitUnderscore f).get? 1 with
      | none =>
        rw [hsp] at h
        exact Except.noConfusion h
      | some n =>
        rw [hsp] at h
        cases hpt : pathTypeOfString ("note_" ++ String.mk caps.ty) with
        | error e =>
          rw [hpt] at h
          exact Except.noConfusion h
        | ok pt =>
          rw [hpt] at h
          injection h with h2
          subst h2
          rcases hty with h5 | h5 | h5 | h5 | h5 <;> rw [h5] at hpt <;>
            first
              | (injection hpt with h6; rw [← h6]; simp)
              | exact Except.noConfusion
                  ((show Except.error (.valueError ("note_commit is not a valid PathType"))
                      = pathTypeOfString ("note_" ++ String.mk "commit".toList) from rfl).trans hpt)
              | exact Except.noConfusion
                  ((show Except.error (.valueError ("note_pipelines is not a valid PathType"))
                      = pathTypeOfString ("note_" ++ String.mk "pipelines".toList) from rfl).trans hpt)
              | exact Except.noConfusion
                  ((show Except.error (.valueError ("note_jobs is not a valid PathType"))
                      = pathTypeOfString ("note_" ++ String.mk "jobs".toList) from rfl).trans hpt)
    case _ =>
      cases hpt : pathTypeOfString (String.mk caps.ty) with
      | error e =>
        rw [hpt] at h
        exact Except.noConfusion h
      | ok pt =>
        rw [hpt] at h
        injection h with h2
        subst h2
        rcases hty with h5 | h5 | h5 | h5 | h5 <;> rw [h5] at hpt <;>
          injection hpt with h6 <;> rw [← h6] <;> simp

/-- C9: every reference a successful classification produces satisfies the
two invariants: kind is PROJECT exactly when identifier and note id are both
absent, and kind is a Note variant exactly when the note id is present. -/
theorem parse_path_kind_invariants :
    ∀ (p : String) (frag : Option String) (r : PathInfo),
      parse_path p frag = .ok r →
      ((r.type = .PROJECT ↔ r.identifier = none ∧ r.note = none) ∧
       ((r.type = .NOTE_ISSUE ∨ r.type = .NOTE_MERGE_REQUESTS) ↔ r.note ≠ none)) := by
  intro p frag r h
  unfold parse_path at h
  split at h
  case _ caps heq =>
    have hmem : caps ∈ pat1Matches p.toList := by
      have hh : caps ∈ (pat1Matches p.toList).head? := by
        rw [heq]
        rfl
      exact List.mem_of_mem_head? hh
    exact buildFromP1_invariants caps frag r (mem_pat1_ty p.toList caps hmem) h
  case _ =>
    split at h
    case _ =>
      injection h with h2
      subst h2
      simp
    case _ => exact Except.noConfusion h

/-- C9 witness: the invariants at a bare project classification. -/
theorem parse_path_kind_invariants_witness :
    (PathType.PROJECT = .PROJECT ↔
      (none : Option String) = none ∧ (none : Option String) = none) ∧
    ((PathType.PROJECT = .NOTE_ISSUE ∨ PathType.PROJECT = .NOTE_MERGE_REQUESTS) ↔
      (none : Option String) ≠ none) :=
  parse_path_kind_invariants "/platform/zoo" none
    ⟨.PROJECT, "platform", "zoo", none, none, none⟩ rfl

/-!
Claim C2: builders fail on any missing required key and never return a
partial attachment.
-/

/-- Top-level keys each builder unconditionally reads from its primary
response object. -/
def requiredKeys : PathType → List String
  | .ISSUE => ["title", "description", "due_date", "milestone", "assignees", "state", "author", "created_at"]
  | .MERGE_REQUEST => ["title", "description", "assignee", "milestone", "state", "changes_count", "author", "created_at"]
  | .COMMIT => ["title", "author_name", "created_at"]
  | .PROJECT => ["description", "namespace", "avatar_url", "name", "created_at"]
  | .PIPELINE => ["status", "ref", "started_at", "finished_at", "id", "user", "created_at"]
  | .JOB => ["status", "stage", "started_at", "finished_at", "duration", "id", "name", "user", "created_at"]
  | .NOTE_ISSUE => ["body", "author", "created_at"]
  | .NOTE_MERGE_REQUESTS => ["body", "author", "created_at"]

/-- Keys the two note builders additionally read from the parent resource. -/
def parentRequiredKeys : PathType → List String
  | .NOTE_ISSUE => ["title", "state"]
  | .NOTE_MERGE_REQUESTS => ["title", "state"]
  | _ => []

/-- The primary fetch each builder performs first. -/
def primaryFetch (t : PathType) (api : Api) (pi : PathInfo) : Except PyErr JVal :=
  match t with
  | .ISSUE => get_issue_data api pi
  | .MERGE_REQUEST => get_merge_request_data api pi
  | .COMMIT => get_data_from_api api (commitApiPath pi)
  | .PROJECT => get_data_from_api api (projectApiPath pi)
  | .PIPELINE => get_data_from_api api (pipelineApiPath pi)
  | .JOB => get_data_from_api api (jobApiPath pi)
  | .NOTE_ISSUE => get_data_from_api api (issueNoteApiPath pi)
  | .NOTE_MERGE_REQUESTS => get_data_from_api api (mrNoteApiPath pi)

/-- The parent fetch the note builders additionally perform. -/
def parentFetch (t : PathType) (api : Api) (pi : PathInfo) : Option (Except PyErr JVal) :=
  match t with
  | .NOTE_ISSUE => some (get_issue_data api pi)
  | .NOTE_MERGE_REQUESTS => some (get_merge_request_data api pi)
  | _ => none

/-- A successful commit try block read its two keys. -/
theorem commitTryBody_keys (data : JVal) (x : String × String)
    (h : commitTryBody data = .ok x) :
    (∃ v, dictGet data "title" = .ok v) ∧ (∃ v, dictGet data "author_name" = .ok v) := by
  unfold commitTryBody at h
  simp only [bind, Except.bind, pure, Except.pure] at h
  repeat any_goals split at h
  all_goals first
    | exact Except.noConfusion h
    | exact ⟨⟨_, by assumption⟩, ⟨_, by assumption⟩⟩

/-- A successful project try block read the description. -/
theorem projectTryBody_keys (data : JVal) (x : JVal)
    (h : projectTryBody data = .ok x) : ∃ v, dictGet data "description" = .ok v := by
  unfold projectTryBody at h
  simp only [bind, Except.bind, pure, Except.pure] at h
  repeat any_goals split at h
  all_goals first
    | exact Except.noConfusion h
    | exact ⟨_, by assumption⟩

/-- A successful pipeline try block read its five keys. -/
theorem pipelinesTryBody_keys (data : JVal) (x : JVal × List AttachField × JVal)
    (h : pipelinesTryBody data = .ok x) :
    (∃ v, dictGet data "status" = .ok v) ∧ (∃ v, dictGet data "ref" = .ok v) ∧
    (∃ v, dictGet data "started_at" = .ok v) ∧ (∃ v, dictGet data "finished_at" = .ok v) ∧
    (∃ v, dictGet data "id" = .ok v) := by
  unfold pipelinesTryBody at h
  simp only [bind, Except.bind, pure, Except.pure] at h
  repeat any_goals split at h
  all_goals first
    | exact Except.noConfusion h
    | exact ⟨⟨_, by assumption⟩, ⟨_, by assumption⟩, ⟨_, by assumption⟩,
             ⟨_, by assumption⟩, ⟨_, by assumption⟩⟩

/-- A successful job try block read its seven keys. -/
theorem jobsTryBody_keys (data : JVal) (x : JVal × List AttachField × JVal × JVal)
    (h : jobsTryBody data = .ok x) :
    (∃ v, dictGet data "status" = .ok v) ∧ (∃ v, dictGet data "stage" = .ok v) ∧
    (∃ v, dictGet data "started_at" = .ok v) ∧ (∃ v, dictGet data "finished_at" = .ok v) ∧
    (∃ v, dictGet data "duration" = .ok v) ∧ (∃ v, dictGet data "id" = .ok v) ∧
    (∃ v, dictGet data "name" = .ok v) := by
  unfold jobsTryBody at h
  simp only [bind, Except.bind, pure, Except.pure] at h
  repeat any_goals split at h
  all_goals first
    | exact Except.noConfusion h
    | exact ⟨⟨_, by assumption⟩, ⟨_, by assumption⟩, ⟨_, by assumption⟩,
             ⟨_, by assumption⟩, ⟨_, by assumption⟩, ⟨_, by assumption⟩,
             ⟨_, by assumption⟩⟩

/-- C2: a builder that returns an attachment has successfully read every one
of its required keys from the fetched object(s); contrapositively, a fetched
JSON object missing a required key makes the build fail (the failed lookup
is a KeyError naming the key — the DecodeError of the spec's taxonomy), and
no partially populated attachment is ever returned. -/
theorem builders_require_keys :
    ∀ (t : PathType) (api : Api) (pi : PathInfo) (a : Attachment),
      get_handler t api pi = .ok a →
      (∀ k ∈ requiredKeys t, ∃ j v, primaryFetch t api pi = .ok j ∧ dictGet j k = .ok v) ∧
      (∀ k ∈ parentRequiredKeys t,
        ∃ pf j v, parentFetch t api pi = some pf ∧ pf = .ok j ∧ dictGet j k = .ok v) := by
  intro t api pi a h
  cases t <;> simp only [get_handler] at h <;>
    simp only [requiredKeys, parentRequiredKeys, primaryFetch, parentFetch]
  case ISSUE =>
    unfold get_issues_info get_issue_data at h
    simp only [bind, Except.bind, pure, Except.pure] at h
    repeat any_goals split at h
    all_goals try (exact Except.noConfusion h)
    all_goals refine ⟨fun k hk => ?_, fun k hk => absurd hk (List.not_mem_nil k)⟩
    all_goals fin_cases hk <;> exact ⟨_, _, by assumption, by assumption⟩
  case MERGE_REQUEST =>
    unfold get_merge_requests_info get_merge_request_data at h
    simp only [bind, Except.bind, pure, Except.pure] at h
    repeat any_goals split at h
    all_goals try (exact Except.noConfusion h)
    all_goals refine ⟨fun k hk => ?_, fun k hk => absurd hk (List.not_mem_nil k)⟩
    all_goals fin_cases hk <;> exact ⟨_, _, by assumption, by assumption⟩
  case NOTE_ISSUE =>
    unfold get_note_issues_info get_issue_data at h
    simp only [bind, Except.bind, pure, Except.pure] at h
    repeat any_goals split at h
    all_goals try (exact Except.noConfusion h)
    all_goals refine ⟨fun k hk => ?_, fun k hk => ?_⟩
    all_goals fin_cases hk
    all_goals first
      | exact ⟨_, _, by assumption, by assumption⟩
      | exact ⟨_, _, _, rfl, by assumption, by assumption⟩
  case NOTE_MERGE_REQUESTS =>
    unfold get_note_merge_requests_info get_merge_request_data at h
    simp only [bind, Except.bind, pure, Except.pure] at h
    repeat any_goals split at h
    all_goals try (exact Except.noConfusion h)
    all_goals refine ⟨fun k hk => ?_, fun k hk => ?_⟩
    all_goals fin_cases hk
    all_goals first
      | exact ⟨_, _, by assumption, by assumption⟩
      | exact ⟨_, _, _, rfl, by assumption, by assumption⟩
  case COMMIT =>
    unfold get_commit_info at h
    simp only [bind, Except.bind, pure, Except.pure] at h
    repeat any_goals split at h
    all_goals try (exact Except.noConfusion h)
    all_goals (
      have hc := commitTryBody_keys _ _ (by assumption)
      obtain ⟨⟨v1, hv1⟩, ⟨v2, hv2⟩⟩ := hc
      refine ⟨fun k hk => ?_, fun k hk => absurd hk (List.not_mem_nil k)⟩
      fin_cases hk <;> exact ⟨_, _, by assumption, by assumption⟩)
  case PROJECT =>
    unfold get_project_info at h
    simp only [bind, Except.bind, pure, Except.pure] at h
    repeat any_goals split at h
    all_goals try (exact Except.noConfusion h)
    all_goals (
      have hc := projectTryBody_keys _ _ (by assumption)
      obtain ⟨v1, hv1⟩ := hc
      refine ⟨fun k hk => ?_, fun k hk => absurd hk (List.not_mem_nil k)⟩
      fin_cases hk <;> exact ⟨_, _, by assumption, by assumption⟩)
  case PIPELINE =>
    unfold get_pipelines_info at h
    simp only [bind, Except.bind, pure, Except.pure] at h
    repeat any_goals split at h
    all_goals try (exact Except.noConfusion h)
    all_goals (
      have hc := pipelinesTryBody_keys _ _ (by assumption)
      obtain ⟨⟨v1, hv1⟩, ⟨v2, hv2⟩, ⟨v3, hv3⟩, ⟨v4, hv4⟩, ⟨v5, hv5⟩⟩ := hc
      refine ⟨fun k hk => ?_, fun k hk => absurd hk (List.not_mem_nil k)⟩
      fin_cases hk <;> exact ⟨_, _, by assumption, by assumption⟩)
  case JOB =>
    unfold get_jobs_info at h
    simp only [bind, Except.bind, pure, Except.pure] at h
    repeat any_goals split at h
    all_goals try (exact Except.noConfusion h)
    all_goals (
      have hc := jobsTryBody_keys _ _ (by assumption)
      obtain ⟨⟨v1, hv1⟩, ⟨v2, hv2⟩, ⟨v3, hv3⟩, ⟨v4, hv4⟩, ⟨v5, hv5⟩,
              ⟨v6, hv6⟩, ⟨v7, hv7⟩⟩ := hc
      refine ⟨fun k hk => ?_, fun k hk => absurd hk (List.not_mem_nil k)⟩
      fin_cases hk <;> exact ⟨_, _, by assumption, by assumption⟩)

/-- C2 witness: the key theorem applied to a concrete successful issue
build. -/
theorem builders_require_keys_witness :
    ∃ j v, primaryFetch .ISSUE sampleIssueApi sampleIssuePi = .ok j ∧
      dictGet j "title" = .ok v := by
  have h := builders_require_keys .ISSUE sampleIssueApi sampleIssuePi _ rfl
  exact h.1 "title" (by simp [requiredKeys])

/-!
Claim C5: sanitization of the free-text fields.
-/

/-- A successful project try block yields the `or ""` coercion of the
description it read. -/
theorem projectTryBody_ok (data : JVal) (x : JVal) (h : projectTryBody data = .ok x) :
    ∃ d, dictGet data "description" = .ok d ∧ x = pyOrEmpty d := by
  unfold projectTryBody at h
  simp only [bind, Except.bind, pure, Except.pure] at h
  repeat any_goals split at h
  all_goals first
    | exact Except.noConfusion h
    | (injection h with h2; exact ⟨_, by assumption, h2.symm⟩)


/-- C5 amended: the issue body and the issue-note body pass through the
sanitizer `prepare_description` at width 300, the merge-request and project
descriptions at width 100; the merge-request-note body alone bypasses the
markup-stripping sanitizer and is only trimmed and width-300 truncated
(`textwrap.shorten` directly). -/
theorem builder_text_sanitization :
    (∀ (api : Api) (pi : PathInfo) (a : Attachment), get_issues_info api pi = .ok a →
      ∃ j d v, get_issue_data api pi = .ok j ∧ dictGet j "description" = .ok d ∧
        prepare_description (pyOrEmpty d) 300 = .ok v ∧ a.text = some v) ∧
    (∀ (api : Api) (pi : PathInfo) (a : Attachment), get_note_issues_info api pi = .ok a →
      ∃ j b s v, get_data_from_api api (issueNoteApiPath pi) = .ok j ∧
        dictGet j "body" = .ok b ∧ pyStripJ b = .ok s ∧
        prepare_description (.str s) 300 = .ok v ∧ a.text = some v) ∧
    (∀ (api : Api) (pi : PathInfo) (a : Attachment), get_merge_requests_info api pi = .ok a →
      ∃ j d v, get_merge_request_data api pi = .ok j ∧ dictGet j "description" = .ok d ∧
        prepare_description (pyOrEmpty d) 100 = .ok v ∧ a.text = some v) ∧
    (∀ (api : Api) (pi : PathInfo) (a : Attachment), get_project_info api pi = .ok a →
      ∃ j d v, get_data_from_api api (projectApiPath pi) = .ok j ∧
        dictGet j "description" = .ok d ∧
        prepare_description (pyOrEmpty d) 100 = .ok v ∧ a.text = some v) ∧
    (∀ (api : Api) (pi : PathInfo) (a : Attachment),
      get_note_merge_requests_info api pi = .ok a →
      ∃ j b s, get_data_from_api api (mrNoteApiPath pi) = .ok j ∧
        dictGet j "body" = .ok b ∧ pyStripJ b = .ok s ∧
        a.text = some (pyShorten 300 s)) := by
  refine ⟨?_, ?_, ?_, ?_, ?_⟩
  · intro api pi a h
    unfold get_issues_info at h
    simp only [bind, Except.bind, pure, Except.pure] at h
    repeat any_goals split at h
    all_goals try (exact Except.noConfusion h)
    all_goals injection h with h2
    all_goals subst h2
    all_goals exact ⟨_, _, _, by assumption, by assumption, by assumption, rfl⟩
  · intro api pi a h
    unfold get_note_issues_info at h
    simp only [bind, Except.bind, pure, Except.pure] at h
    repeat any_goals split at h
    all_goals try (exact Except.noConfusion h)
    all_goals injection h with h2
    all_goals subst h2
    all_goals exact ⟨_, _, _, _, by assumption, by assumption, by assumption,
      by assumption, rfl⟩
  · intro api pi a h
    unfold get_merge_requests_info at h
    simp only [bind, Except.bind, pure, Except.pure] at h
    repeat any_goals split at h
    all_goals try (exact Except.noConfusion h)
    all_goals injection h with h2
    all_goals subst h2
    all_goals exact ⟨_, _, _, by assumption, by assumption, by assumption, rfl⟩
  · intro api pi a h
    unfold get_project_info at h
    simp only [bind, Except.bind, pure, Except.pure] at h
    repeat any_goals split at h
    all_goals try (exact Except.noConfusion h)
    all_goals obtain ⟨d, hd, hx⟩ := projectTryBody_ok _ _ (by assumption)
    all_goals injection h with h2
    all_goals subst h2
    all_goals subst hx
    all_goals exact ⟨_, _, _, by assumption, hd, by assumption, rfl⟩
  · intro api pi a h
    unfold get_note_merge_requests_info at h
    simp only [bind, Except.bind, pure, Except.pure] at h
    repeat any_goals split at h
    all_goals try (exact Except.noConfusion h)
    all_goals injection h with h2
    all_goals subst h2
    all_goals exact ⟨_, _, _, by assumption, by assumption, by assumption, rfl⟩

/-- C5 counterexample: the claim says the merge-request-note builder
sanitizes the note body; with body "<b>hi</b>" the attachment text keeps the
markup verbatim, while the sanitizer at the claimed width would strip it. -/
theorem mr_note_text_unsanitized :
    (get_note_merge_requests_info sampleMrNoteApi sampleMrNotePi).map Attachment.text
      = .ok (some "<b>hi</b>") ∧
    prepare_description (.str "<b>hi</b>") 300 = .ok "hi" ∧
    ("<b>hi</b>" : String) ≠ "hi" := by
  exact ⟨rfl, rfl, by decide⟩

/-- C5 witness: the merge-request-note conjunct applied at the concrete
sample build. -/
theorem builder_text_sanitization_witness :
    ∃ j b s, get_data_from_api sampleMrNoteApi (mrNoteApiPath sampleMrNotePi) = .ok j ∧
      dictGet j "body" = .ok b ∧ pyStripJ b = .ok s ∧
      (Attachment.text ⟨some (.str "alice"), some (.str "https://gl/alice"),
        some (.str "https://gl/a.png"), none,
        .str "Comment on merge request: Fix", none, none, some "<b>hi</b>",
        some "#1aaa55", "2018-01-01T00:00:00Z", "Merge Request Note"⟩)
        = some (pyShorten 300 s) := by
  exact builder_text_sanitization.2.2.2.2 sampleMrNoteApi sampleMrNotePi _ rfl

/-!
Claim C1: error scoping of the webhook loop.
-/

/-- A link the loop can get past: its url is a string and it is either
marked no_unfurl, or fails classification with the ValueError the loop
catches, or classifies and its handler succeeds. -/
def LinkOk (api : Api) (link : JVal) : Prop :=
  ∃ s, dictGet link "url" = .ok (.str s) ∧
    (strContains (pyUrlparse (cleanedUrl s)).query "no_unfurl" = true ∨
     (∃ m, parse_path (pyUrlparse (cleanedUrl s)).path
        (some (pyUrlparse (cleanedUrl s)).fragment) = .error (.valueError m)) ∨
     (∃ pi a, parse_path (pyUrlparse (cleanedUrl s)).path
        (some (pyUrlparse (cleanedUrl s)).fragment) = .ok pi ∧
        get_handler pi.type api pi = .ok a))

/-- The loop acknowledges when every link is skippable or succeeds. -/
theorem processLinks_all_ok :
    ∀ (api : Api) (L : List JVal) (channel mts : JVal) (links : List JVal),
      (∀ link ∈ links, LinkOk api link) →
      ∃ sent, processLinks api (mkRequest L channel mts) links = .ok sent := by
  intro api L channel mts links
  induction links with
  | nil =>
    intro _
    exact ⟨[], rfl⟩
  | cons link rest ih =>
    intro hall
    obtain ⟨s, hurl, hcase⟩ := hall link (List.mem_cons_self link rest)
    obtain ⟨sent, hsent⟩ := ih (fun l hl => hall l (List.mem_cons_of_mem link hl))
    unfold processLinks
    simp only [bind, Except.bind, pure, Except.pure]
    rw [hurl]
    dsimp only
    cases hc : strContains (pyUrlparse (cleanedUrl s)).query "no_unfurl" with
    | true =>
      simp only [hc, if_true]
      exact ⟨sent, hsent⟩
    | false =>
      simp only [hc, Bool.false_eq_true, if_false]
      rcases hcase with hnu | ⟨m, hpe⟩ | ⟨pi2, a2, hok, hh⟩
      · rw [hc] at hnu
        exact Bool.noConfusion hnu
      · rw [hpe]
        exact ⟨sent, hsent⟩
      · rw [hok]
        dsimp only
        rw [hh]
        dsimp only
        rw [show dictGet (mkRequest L channel mts) "event" =
          .ok (.obj [("links", .arr L), ("channel", channel), ("message_ts", mts)]) from rfl]
        dsimp only
        rw [show dictGet (JVal.obj [("links", .arr L), ("channel", channel),
          ("message_ts", mts)]) "channel" = .ok channel from rfl]
        dsimp only
        rw [show dictGet (JVal.obj [("links", .arr L), ("channel", channel),
          ("message_ts", mts)]) "message_ts" = .ok mts from rfl]
        dsimp only
        rw [hsent]
        exact ⟨(s, withTitleLink a2 s) :: sent, rfl⟩

/-- C1 amended: the loop is link-scoped only for the errors it catches — a
link with a no_unfurl marker, an unparsable path, or a missing handler (the
handler table is total, so the latter cannot arise) is skipped and
processing continues, and when every remaining link's fetch and build
succeed the invocation acknowledges with OK_RESPONSE; an upstream non-2xx
or a missing-field failure on any link, however, propagates and aborts the
whole invocation with no acknowledgment (see the counterexample). -/
theorem unfurl_skip_continue_ok :
    ∀ (api : Api) (links : List JVal) (channel mts : JVal),
      (∀ link ∈ links, LinkOk api link) →
      ∃ sent, unfurl api (mkRequest links channel mts) = .ok (OK_RESPONSE, sent) := by
  intro api links channel mts hall
  obtain ⟨sent, hsent⟩ := processLinks_all_ok api links channel mts links hall
  refine ⟨sent, ?_⟩
  unfold unfurl
  simp only [bind, Except.bind, pure, Except.pure]
  rw [show dictGet (mkRequest links channel mts) "type" = .ok (.str "event_callback") from rfl]
  dsimp only
  rw [show jEqStr (JVal.str "event_callback") "url_verification" = false from rfl]
  simp only [Bool.false_eq_true, if_false]
  rw [show dictGet (mkRequest links channel mts) "event" =
    .ok (.obj [("links", .arr links), ("channel", channel), ("message_ts", mts)]) from rfl]
  dsimp only
  rw [show dictGet (JVal.obj [("links", .arr links), ("channel", channel),
    ("message_ts", mts)]) "links" = .ok (.arr links) from rfl]
  dsimp only
  rw [hsent]

/-- C1 counterexample: one link whose upstream fetch is a 404 aborts the
whole invocation with the HTTP error — the handler returns no success
acknowledgment, refuting the claim that upstream errors are link-scoped and
the event is always acknowledged. -/
theorem unfurl_upstream_error_aborts :
    unfurl sampleBadApi
      (mkRequest [.obj [("url", .str "https://gitlab.com/team/proj/issues/1")]]
        (.str "C1") (.str "111.222"))
      = .error (.httpError 404) := rfl

/-- C1 witness: an event with one unparsable link and one good link is
acknowledged, the bad link merely skipped. -/
theorem unfurl_skip_continue_ok_witness :
    ∃ sent, unfurl sampleIssueApi
      (mkRequest [.obj [("url", .str "https://gitlab.com/mario")],
                  .obj [("url", .str "https://gitlab.com/team/proj/issues/1")]]
        (.str "C") (.str "1.2"))
      = .ok (OK_RESPONSE, sent) := by
  apply unfurl_skip_continue_ok
  intro link hl
  rcases List.mem_cons.mp hl with h1 | hl
  · subst h1
    exact ⟨_, rfl, Or.inr (Or.inl ⟨_, rfl⟩)⟩
  rcases List.mem_cons.mp hl with h2 | hl
  · subst h2
    exact ⟨_, rfl, Or.inr (Or.inr ⟨_, _, rfl, rfl⟩)⟩
  exact absurd hl (List.not_mem_nil link)

/-!
Claim C6: appending one trailing slash to a successfully classified path.
The backtracking match lists of both patterns are invariant under appending
a slash to a path that does not already end in one: the added slash can only
be absorbed by the final optional slash, and every alternative that would
absorb it earlier dies before completing the pattern.
-/

/-- The path does not end in a slash (vacuously true for the empty path). -/
def noTrailSlash (t : List Char) : Prop := t.getLast? ≠ some '/'

/-- Suffixes inherit the property. -/
theorem noTrailSlash_of_suffix {t r : List Char} (h : r <:+ t)
    (ht : noTrailSlash t) : noTrailSlash r := by
  obtain ⟨u, rfl⟩ := h
  cases r with
  | nil => simp [noTrailSlash]
  | cons x l =>
    unfold noTrailSlash at ht ⊢
    rw [List.getLast?_append_of_ne_nil u (show x :: l ≠ [] by simp)] at ht
    exact ht

/-- Run splitting: when every element of the first part satisfies the
predicate the run continues into the second part. -/
theorem takeWhile_append_all {α} (p : α → Bool) (l u : List α)
    (h : ∀ x ∈ l, p x = true) : (l ++ u).takeWhile p = l ++ u.takeWhile p := by
  induction l with
  | nil => rfl
  | cons x rest ih =>
    have hx := h x (List.mem_cons_self x rest)
    simp only [List.cons_append, List.takeWhile_cons, hx, if_true]
    rw [ih (fun y hy => h y (List.mem_cons_of_mem x hy))]

/-- Run splitting: when the run stops inside the first part the second part
is irrelevant. -/
theorem takeWhile_append_not_all {α} (p : α → Bool) (l u : List α)
    (h : ¬ ∀ x ∈ l, p x = true) : (l ++ u).takeWhile p = l.takeWhile p := by
  induction l with
  | nil => exact absurd (fun x hx => absurd hx (List.not_mem_nil x)) h
  | cons x rest ih =>
    by_cases hx : p x = true
    · have hrest : ¬ ∀ y ∈ rest, p y = true := by
        intro hall
        exact h (fun y hy => by
          rcases List.mem_cons.mp hy with h1 | h2
          · rw [h1]; exact hx
          · exact hall y h2)
      simp only [List.cons_append, List.takeWhile_cons, hx, if_true]
      rw [ih hrest]
    · simp only [List.cons_append, List.takeWhile_cons]
      rw [if_neg hx, if_neg hx]

/-- Appending a slash to a nonempty input shifts a literal-character match
by the same slash. -/
theorem litChar_mirror (c : Char) (t : List Char) (ht : t ≠ []) :
    litChar c (t ++ ['/']) = (litChar c t).map (fun r => r ++ ['/']) := by
  cases t with
  | nil => exact absurd rfl ht
  | cons x rest =>
    simp only [List.cons_append, litChar]
    by_cases hx : x = c <;> simp [hx]

/-- Same for the greedy optional character. -/
theorem optChar_mirror (c : Char) (t : List Char) (ht : t ≠ []) :
    optChar c (t ++ ['/']) = (optChar c t).map (fun r => r ++ ['/']) := by
  cases t with
  | nil => exact absurd rfl ht
  | cons x rest =>
    simp only [List.cons_append, optChar]
    by_cases hx : x = c <;> simp [hx]

/-- Same for a greedy class plus whose class rejects the slash. -/
theorem greedyPlus_mirror (cls : Char → Bool) (t : List Char)
    (hcls : cls '/' = false) :
    greedyPlus cls (t ++ ['/']) =
      (greedyPlus cls t).map (fun p => (p.1, p.2 ++ ['/'])) := by
  have hrun : (t ++ ['/']).takeWhile cls = t.takeWhile cls := by
    by_cases hall : ∀ x ∈ t, cls x = true
    · rw [takeWhile_append_all cls t ['/'] hall]
      rw [List.takeWhile_eq_self_iff.mpr hall]
      simp [List.takeWhile_cons, hcls]
    · exact takeWhile_append_not_all cls t ['/'] hall
  have hlen : (t.takeWhile cls).length ≤ t.length := (List.takeWhile_prefix cls).length_le
  unfold greedyPlus
  rw [hrun, List.map_map]
  apply List.map_congr_left
  intro k hk
  have hk2 : (t.takeWhile cls).length - k ≤ t.length := le_trans (Nat.sub_le _ _) hlen
  simp only [Function.comp]
  rw [List.take_append_of_le_length hk2, List.drop_append_of_le_length hk2]

/-- Lazy star over a class accepting the slash, when the whole input lies in
the class: one extra longest alternative appears at the end. -/
theorem lazyStar_mirror_all (cls : Char → Bool) (t : List Char)
    (hcls : cls '/' = true) (hall : ∀ x ∈ t, cls x = true) :
    lazyStar cls (t ++ ['/']) =
      (lazyStar cls t).map (fun p => (p.1, p.2 ++ ['/'])) ++ [(t ++ ['/'], [])] := by
  have h1 : (t ++ ['/']).takeWhile cls = t ++ ['/'] := by
    rw [takeWhile_append_all cls t ['/'] hall]
    simp [List.takeWhile_cons, hcls]
  have h2 : t.takeWhile cls = t := List.takeWhile_eq_self_iff.mpr hall
  unfold lazyStar
  rw [h1, h2]
  rw [show (t ++ ['/']).length + 1 = (t.length + 1) + 1 by simp]
  rw [List.range_succ, List.map_append, List.map_map]
  congr 1
  · apply List.map_congr_left
    intro n hn
    have hn2 : n ≤ t.length := Nat.lt_succ_iff.mp (List.mem_range.mp hn)
    simp only [Function.comp]
    rw [List.take_append_of_le_length hn2, List.drop_append_of_le_length hn2]
  · simp

/-- Lazy star when the run stops inside the input: the alternatives mirror
exactly. -/
theorem lazyStar_mirror_not_all (cls : Char → Bool) (t : List Char)
    (hnall : ¬ ∀ x ∈ t, cls x = true) :
    lazyStar cls (t ++ ['/']) =
      (lazyStar cls t).map (fun p => (p.1, p.2 ++ ['/'])) := by
  have hrun := takeWhile_append_not_all cls t ['/'] hnall
  have hlen : (t.takeWhile cls).length ≤ t.length := (List.takeWhile_prefix cls).length_le
  unfold lazyStar
  rw [hrun, List.map_map]
  apply List.map_congr_left
  intro n hn
  have hn2 : n ≤ t.length :=
    le_trans (Nat.lt_succ_iff.mp (List.mem_range.mp hn)) hlen
  simp only [Function.comp]
  rw [List.take_append_of_le_length hn2, List.drop_append_of_le_length hn2]

/-- A word without slashes is a prefix of `t ++ "/"` exactly when it is a
prefix of `t`. -/
theorem isPrefixOf_append_slash (w t : List Char) (hne : w ≠ []) (hs : '/' ∉ w) :
    w.isPrefixOf (t ++ ['/']) = w.isPrefixOf t := by
  by_cases h : w <+: t
  · rw [List.isPrefixOf_iff_prefix.mpr h,
        List.isPrefixOf_iff_prefix.mpr (h.trans (List.prefix_append t ['/']))]
  · have h2 : ¬ w <+: (t ++ ['/']) := by
      intro hpre
      rcases le_or_lt w.length t.length with hle | hlt
      · apply h
        have := List.prefix_iff_eq_take.mp hpre
        rw [List.take_append_of_le_length hle] at this
        rw [this]
        exact List.take_prefix w.length t
      · have hle2 : w.length ≤ t.length + 1 := by
          have := hpre.length_le
          simpa using this
        have hlen : w.length = t.length + 1 := le_antisymm hle2 hlt
        have := List.prefix_iff_eq_take.mp hpre
        rw [hlen] at this
        rw [show t.length + 1 = (t ++ ['/']).length by simp] at this
        rw [List.take_length] at this
        apply hs
        rw [this]
        simp
    rw [Bool.eq_false_iff.mpr (fun hb => h (List.isPrefixOf_iff_prefix.mp hb)),
        Bool.eq_false_iff.mpr (fun hb => h2 (List.isPrefixOf_iff_prefix.mp hb))]

/-- Ordered literal alternation mirrors when no word is empty or contains a
slash. -/
theorem litAlt_mirror (ws : List (List Char)) (t : List Char)
    (hws : ∀ w ∈ ws, w ≠ [] ∧ '/' ∉ w) :
    litAlt ws (t ++ ['/']) = (litAlt ws t).map (fun p => (p.1, p.2 ++ ['/'])) := by
  unfold litAlt
  rw [List.map_filterMap]
  apply List.filterMap_congr
  intro w hw
  obtain ⟨hne, hs⟩ := hws w hw
  rw [isPrefixOf_append_slash w t hne hs]
  by_cases h : w.isPrefixOf t
  · have hle : w.length ≤ t.length := (List.isPrefixOf_iff_prefix.mp h).length_le
    simp [h, List.drop_append_of_le_length hle]
  · simp [h]

/-- Rests produced by a greedy class plus are suffixes of the input. -/
theorem greedyPlus_suffix (cls : Char → Bool) (t : List Char)
    (p : List Char × List Char) (hp : p ∈ greedyPlus cls t) : p.2 <:+ t := by
  simp only [greedyPlus, List.mem_map, List.mem_range] at hp
  obtain ⟨k, _, heq⟩ := hp
  rw [← heq]
  exact List.drop_suffix _ _

/-- Rests produced by a lazy star are suffixes of the input. -/
theorem lazyStar_suffix (cls : Char → Bool) (t : List Char)
    (p : List Char × List Char) (hp : p ∈ lazyStar cls t) : p.2 <:+ t := by
  simp only [lazyStar, List.mem_map, List.mem_range] at hp
  obtain ⟨n, _, heq⟩ := hp
  rw [← heq]
  exact List.drop_suffix _ _

/-- Rests produced by the alternation are suffixes of the input. -/
theorem litAlt_suffix (ws : List (List Char)) (t : List Char)
    (p : List Char × List Char) (hp : p ∈ litAlt ws t) : p.2 <:+ t := by
  simp only [litAlt, List.mem_filterMap] at hp
  obtain ⟨w, _, hcond⟩ := hp
  split at hcond
  · cases hcond
    exact List.drop_suffix _ _
  · cases hcond

/-- Evaluation of `litChar` on a matching head. -/
theorem litChar_cons_self (c : Char) (rest : List Char) :
    litChar c (c :: rest) = [rest] := by
  simp [litChar]

/-- Evaluation of `litChar` on a mismatching head. -/
theorem litChar_cons_ne (c x : Char) (h : x ≠ c) (rest : List Char) :
    litChar c (x :: rest) = [] := by
  simp [litChar, h]

/-- Evaluation of `optChar` on a matching head. -/
theorem optChar_cons_self (c : Char) (rest : List Char) :
    optChar c (c :: rest) = [rest, c :: rest] := by
  simp [optChar]

/-- Evaluation of `optChar` on a mismatching head. -/
theorem optChar_cons_ne (c x : Char) (h : x ≠ c) (rest : List Char) :
    optChar c (x :: rest) = [x :: rest] := by
  simp [optChar, h]

/-- Composition through a literal character: the continuation must vanish on
the empty rest. -/
theorem mirror_litChar {α} (c : Char) (F : List Char → List α)
    (hF : ∀ u, noTrailSlash u → F (u ++ ['/']) = F u)
    (hFnil : F [] = []) :
    ∀ t, noTrailSlash t →
      (litChar c (t ++ ['/'])).flatMap F = (litChar c t).flatMap F := by
  intro t ht
  cases t with
  | nil =>
    by_cases hc : ('/' : Char) = c
    · subst hc
      simp only [List.nil_append, litChar_cons_self, List.flatMap_cons,
        List.flatMap_nil, List.append_nil, hFnil]
      rfl
    · rw [List.nil_append, litChar_cons_ne c '/' hc []]
      rfl
  | cons x rest =>
    have hrest : noTrailSlash rest := noTrailSlash_of_suffix ⟨[x], rfl⟩ ht
    by_cases hx : x = c
    · subst hx
      rw [List.cons_append, litChar_cons_self, litChar_cons_self]
      simp only [List.flatMap_cons, List.flatMap_nil, List.append_nil]
      exact hF rest hrest
    · rw [List.cons_append, litChar_cons_ne c x hx, litChar_cons_ne c x hx]

/-- Composition through a greedy optional character: the continuation must
vanish on the empty rest and on the lone slash. -/
theorem mirror_optChar {α} (c : Char) (F : List Char → List α)
    (hF : ∀ u, noTrailSlash u → F (u ++ ['/']) = F u)
    (hFnil : F [] = []) (hFslash : F ['/'] = []) :
    ∀ t, noTrailSlash t →
      (optChar c (t ++ ['/'])).flatMap F = (optChar c t).flatMap F := by
  intro t ht
  cases t with
  | nil =>
    by_cases hc : ('/' : Char) = c
    · subst hc
      rw [List.nil_append, optChar_cons_self]
      simp [optChar, hFnil, hFslash]
    · rw [List.nil_append, optChar_cons_ne c '/' hc []]
      simp [optChar, hFnil, hFslash]
  | cons x rest =>
    have hrest : noTrailSlash rest := noTrailSlash_of_suffix ⟨[x], rfl⟩ ht
    by_cases hx : x = c
    · subst hx
      rw [List.cons_append, optChar_cons_self, optChar_cons_self]
      simp only [List.flatMap_cons, List.flatMap_nil, List.append_nil]
      rw [hF rest hrest, ← List.cons_append, hF (x :: rest) ht]
    · rw [List.cons_append, optChar_cons_ne c x hx, optChar_cons_ne c x hx]
      simp only [List.flatMap_cons, List.flatMap_nil, List.append_nil]
      rw [← List.cons_append]
      exact hF (x :: rest) ht

/-- Composition through a greedy class plus rejecting the slash. -/
theorem mirror_greedyPlus {α} (cls : Char → Bool) (hcls : cls '/' = false)
    (K : List Char × List Char → List α)
    (hK : ∀ a u, noTrailSlash u → K (a, u ++ ['/']) = K (a, u)) :
    ∀ t, noTrailSlash t →
      (greedyPlus cls (t ++ ['/'])).flatMap K = (greedyPlus cls t).flatMap K := by
  intro t ht
  rw [greedyPlus_mirror cls t hcls, List.flatMap_map]
  apply List.flatMap_congr
  intro p hp
  exact hK p.1 p.2 (noTrailSlash_of_suffix (greedyPlus_suffix cls t p hp) ht)

/-- Composition through the alternation of slash-free nonempty words. -/
theorem mirror_litAlt {α} (ws : List (List Char))
    (hws : ∀ w ∈ ws, w ≠ [] ∧ '/' ∉ w)
    (K : List Char × List Char → List α)
    (hK : ∀ a u, noTrailSlash u → K (a, u ++ ['/']) = K (a, u)) :
    ∀ t, noTrailSlash t →
      (litAlt ws (t ++ ['/'])).flatMap K = (litAlt ws t).flatMap K := by
  intro t ht
  rw [litAlt_mirror ws t hws, List.flatMap_map]
  apply List.flatMap_congr
  intro p hp
  exact hK p.1 p.2 (noTrailSlash_of_suffix (litAlt_suffix ws t p hp) ht)

/-- Composition through a lazy star accepting the slash: the extra longest
alternative consumes everything and leaves the empty rest, on which the
continuation vanishes. -/
theorem mirror_lazyStar {α} (cls : Char → Bool) (hcls : cls '/' = true)
    (K : List Char × List Char → List α)
    (hK : ∀ a u, noTrailSlash u → K (a, u ++ ['/']) = K (a, u))
    (hKnil : ∀ a, K (a, []) = []) :
    ∀ t, noTrailSlash t →
      (lazyStar cls (t ++ ['/'])).flatMap K = (lazyStar cls t).flatMap K := by
  intro t ht
  by_cases hall : ∀ x ∈ t, cls x = true
  · rw [lazyStar_mirror_all cls t hcls hall, List.flatMap_append, List.flatMap_map]
    have h2 : ([(t ++ ['/'], [])] : List (List Char × List Char)).flatMap K = [] := by
      simp [hKnil]
    rw [h2, List.append_nil]
    apply List.flatMap_congr
    intro p hp
    exact hK p.1 p.2 (noTrailSlash_of_suffix (lazyStar_suffix cls t p hp) ht)
  · rw [lazyStar_mirror_not_all cls t hall, List.flatMap_map]
    apply List.flatMap_congr
    intro p hp
    exact hK p.1 p.2 (noTrailSlash_of_suffix (lazyStar_suffix cls t p hp) ht)

/-- The pattern tail absorbs one appended slash. -/
theorem reEnd_slash : ∀ t, noTrailSlash t → reEnd (t ++ ['/']) = reEnd t := by
  intro t ht
  cases t with
  | nil => rfl
  | cons x rest =>
    unfold reEnd
    by_cases hx : x = '/'
    · subst hx
      have hrest : rest ≠ [] := by
        intro h0
        subst h0
        exact ht rfl
      rw [List.cons_append, optChar_cons_self, optChar_cons_self]
      simp [hrest]
    · rw [List.cons_append, optChar_cons_ne '/' x hx, optChar_cons_ne '/' x hx]
      simp

/-- Stage lemma: identifier suffix. -/
theorem reIdent_slash : ∀ t, noTrailSlash t → reIdent (t ++ ['/']) = reIdent t := by
  intro t ht
  unfold reIdent
  exact mirror_greedyPlus wChar (by decide) _
    (fun a u hu => by dsimp only; rw [reEnd_slash u hu]) t ht

/-- Stage lemma: slash before the identifier. -/
theorem reSlashIdent_slash : ∀ t, noTrailSlash t →
    reSlashIdent (t ++ ['/']) = reSlashIdent t := by
  intro t ht
  unfold reSlashIdent
  exact mirror_litChar '/' (fun s1 => reIdent s1) (fun u hu => reIdent_slash u hu) rfl t ht

/-- Stage lemma: type keyword on. -/
theorem reTypeOn_slash : ∀ t, noTrailSlash t → reTypeOn (t ++ ['/']) = reTypeOn t := by
  intro t ht
  unfold reTypeOn
  exact mirror_litAlt typeWords (by decide) _
    (fun a u hu => by dsimp only; rw [reSlashIdent_slash u hu]) t ht

/-- Stage lemma: optional slash before the type keyword. -/
theorem reSlashType_slash : ∀ t, noTrailSlash t →
    reSlashType (t ++ ['/']) = reSlashType t := by
  intro t ht
  unfold reSlashType
  exact mirror_optChar '/' (fun s2 => reTypeOn s2)
    (fun u hu => reTypeOn_slash u hu) rfl rfl t ht

/-- Stage lemma: optional dash. -/
theorem reDashSlashType_slash : ∀ t, noTrailSlash t →
    reDashSlashType (t ++ ['/']) = reDashSlashType t := by
  intro t ht
  unfold reDashSlashType
  exact mirror_optChar '-' (fun s1 => reSlashType s1)
    (fun u hu => reSlashType_slash u hu) rfl rfl t ht

/-- Stage lemma: slash after the project group. -/
theorem reProjTail_slash : ∀ t, noTrailSlash t →
    reProjTail (t ++ ['/']) = reProjTail t := by
  intro t ht
  unfold reProjTail
  exact mirror_litChar '/' (fun s1 => reDashSlashType s1)
    (fun u hu => reDashSlashType_slash u hu) rfl t ht

/-- Stage lemma: project group on. -/
theorem reProjOn_slash : ∀ t, noTrailSlash t → reProjOn (t ++ ['/']) = reProjOn t := by
  intro t ht
  unfold reProjOn
  exact mirror_greedyPlus wdChar (by decide) _
    (fun a u hu => by dsimp only; rw [reProjTail_slash u hu]) t ht

/-- Stage lemma: optional slash after the subgroups. -/
theorem reSubTail_slash : ∀ t, noTrailSlash t →
    reSubTail (t ++ ['/']) = reSubTail t := by
  intro t ht
  unfold reSubTail
  exact mirror_optChar '/' (fun s1 => reProjOn s1)
    (fun u hu => reProjOn_slash u hu) rfl rfl t ht

/-- Stage lemma: subgroups group on. -/
theorem reSubOn_slash : ∀ t, noTrailSlash t → reSubOn (t ++ ['/']) = reSubOn t := by
  intro t ht
  unfold reSubOn
  exact mirror_lazyStar sgChar (by decide) _
    (fun a u hu => by dsimp only; rw [reSubTail_slash u hu])
    (fun a => rfl) t ht

/-- Stage lemma: slash after the team group (pattern 1). -/
theorem pat1AfterTeam_slash : ∀ t, noTrailSlash t →
    pat1AfterTeam (t ++ ['/']) = pat1AfterTeam t := by
  intro t ht
  unfold pat1AfterTeam
  exact mirror_litChar '/' (fun s1 => reSubOn s1)
    (fun u hu => reSubOn_slash u hu) rfl t ht

/-- Stage lemma: team group on (pattern 1). -/
theorem pat1Body_slash : ∀ t, noTrailSlash t → pat1Body (t ++ ['/']) = pat1Body t := by
  intro t ht
  unfold pat1Body
  exact mirror_greedyPlus wdChar (by decide) _
    (fun a u hu => by dsimp only; rw [pat1AfterTeam_slash u hu]) t ht

/-- The resource pattern's match list is invariant under one appended slash
when the path does not already end in a slash. -/
theorem pat1Matches_slash : ∀ t, noTrailSlash t →
    pat1Matches (t ++ ['/']) = pat1Matches t := by
  intro t ht
  unfold pat1Matches
  exact mirror_litChar '/' (fun s1 => pat1Body s1)
    (fun u hu => pat1Body_slash u hu) rfl t ht

/-- Stage lemma: project group then end (pattern 2). -/
theorem reProjEnd_slash : ∀ t, noTrailSlash t →
    reProjEnd (t ++ ['/']) = reProjEnd t := by
  intro t ht
  unfold reProjEnd
  exact mirror_greedyPlus wdChar (by decide) _
    (fun a u hu => by dsimp only; rw [reEnd_slash u hu]) t ht

/-- Stage lemma: optional slash after the subgroups (pattern 2). -/
theorem reSubTail2_slash : ∀ t, noTrailSlash t →
    reSubTail2 (t ++ ['/']) = reSubTail2 t := by
  intro t ht
  unfold reSubTail2
  exact mirror_optChar '/' (fun s1 => reProjEnd s1)
    (fun u hu => reProjEnd_slash u hu) rfl rfl t ht

/-- Stage lemma: subgroups group on (pattern 2). -/
theorem reSubOn2_slash : ∀ t, noTrailSlash t → reSubOn2 (t ++ ['/']) = reSubOn2 t := by
  intro t ht
  unfold reSubOn2
  exact mirror_lazyStar sgChar (by decide) _
    (fun a u hu => by dsimp only; rw [reSubTail2_slash u hu])
    (fun a => rfl) t ht

/-- Stage lemma: slash after the team group (pattern 2). -/
theorem pat2AfterTeam_slash : ∀ t, noTrailSlash t →
    pat2AfterTeam (t ++ ['/']) = pat2AfterTeam t := by
  intro t ht
  unfold pat2AfterTeam
  exact mirror_litChar '/' (fun s1 => reSubOn2 s1)
    (fun u hu => reSubOn2_slash u hu) rfl t ht

/-- Stage lemma: team group on (pattern 2). -/
theorem pat2Body_slash : ∀ t, noTrailSlash t → pat2Body (t ++ ['/']) = pat2Body t := by
  intro t ht
  unfold pat2Body
  exact mirror_greedyPlus wdChar (by decide) _
    (fun a u hu => by dsimp only; rw [pat2AfterTeam_slash u hu]) t ht

/-- The project pattern's match list is invariant under one appended slash
when the path does not already end in a slash. -/
theorem pat2Matches_slash : ∀ t, noTrailSlash t →
    pat2Matches (t ++ ['/']) = pat2Matches t := by
  intro t ht
  unfold pat2Matches
  exact mirror_litChar '/' (fun s1 => pat2Body s1)
    (fun u hu => pat2Body_slash u hu) rfl t ht

/-- C6 amended: for every path that does not already end in a slash and on
which the classifier succeeds, appending a single trailing slash yields the
same resource reference (for any fragment).  Paths already ending in a slash
can classify successfully, yet appending another slash then fails — see the
counterexample. -/
theorem parse_path_trailing_slash :
    ∀ (p : String) (frag : Option String) (r : PathInfo),
      p.toList.getLast? ≠ some '/' →
      parse_path p frag = .ok r →
      parse_path (p ++ "/") frag = .ok r := by
  intro p frag r ht h
  have hlist : (p ++ "/").toList = p.toList ++ ['/'] := by
    cases p with
    | mk l => rfl
  unfold parse_path at h ⊢
  rw [hlist, pat1Matches_slash p.toList ht, pat2Matches_slash p.toList ht]
  cases hm : (pat1Matches p.toList).head? with
  | some caps =>
    rw [hm] at h
    dsimp only at h ⊢
    exact h
  | none =>
    rw [hm] at h
    dsimp only at h ⊢
    cases hm2 : (pat2Matches p.toList).head? with
    | some caps2 =>
      rw [hm2] at h
      dsimp only at h ⊢
      exact h
    | none =>
      rw [hm2] at h
      dsimp only at h
      exact Except.noConfusion h

/-- C6 counterexample: "/a/b/" classifies as a project, but with one more
trailing slash appended classification fails, so the claim's unconditional
round trip is false for paths already ending in a slash.  The repository's
own test guards this case with `if not path.endswith ("/")`. -/
theorem parse_path_double_slash_fails :
    parse_path "/a/b/" none = .ok ⟨.PROJECT, "a", "b", none, none, none⟩ ∧
    parse_path ("/a/b/" ++ "/") none =
      .error (.valueError ("Cant parse path: /a/b//")) := by
  exact ⟨rfl, rfl⟩

/-- C6 witness: the trailing-slash theorem applied at a concrete project
path. -/
theorem parse_path_trailing_slash_witness :
    parse_path ("/platform/zoo" ++ "/") none =
      .ok ⟨.PROJECT, "platform", "zoo", none, none, none⟩ :=
  parse_path_trailing_slash "/platform/zoo" none
    ⟨.PROJECT, "platform", "zoo", none, none, none⟩ (by decide) rfl

/-!
Claim C8: truncation behaviour of the sanitizer.
-/

/-- The scanner copies a character that is not markup-significant. -/
theorem stripHtmlAux_text_cons (c : Char) (rest : List Char)
    (h1 : c ≠ '<') (h2 : c ≠ '>') (h3 : c ≠ '&') :
    stripHtmlAux (c :: rest) .text = c :: stripHtmlAux rest .text := by
  conv_lhs => unfold stripHtmlAux
  split
  all_goals simp_all

/-- The scanner is the identity on markup-free text. -/
theorem stripHtmlAux_text_id : ∀ (l : List Char),
    (∀ c ∈ l, c ≠ '<' ∧ c ≠ '>' ∧ c ≠ '&') → stripHtmlAux l .text = l := by
  intro l
  induction l with
  | nil => intro _; rfl
  | cons c rest ih =>
    intro h
    obtain ⟨h1, h2, h3⟩ := h c (List.mem_cons_self c rest)
    rw [stripHtmlAux_text_cons c rest h1 h2 h3,
        ih (fun y hy => h y (List.mem_cons_of_mem c hy))]

/-- The input contains none of the characters the markup stripper acts on. -/
def markupFree (s : String) : Prop :=
  ∀ c ∈ s.toList, c ≠ '<' ∧ c ≠ '>' ∧ c ≠ '&'

/-- On markup-free input the markup stripper is the identity. -/
theorem strip_html_tags_id (s : String) (h : markupFree s) :
    strip_html_tags s = s := by
  unfold strip_html_tags
  rw [stripHtmlAux_text_id s.toList h]
  cases s with
  | mk l => rfl

/-- The truncation loop returns the accumulated line extended by a word
prefix of the remaining words, with the ellipsis appended and the total
within the width. -/
theorem shortenGo_spec (w : Nat) :
    ∀ (ws : List String) (acc : String), acc.length + 1 ≤ w →
      ∃ pre suf, ws = pre ++ suf ∧
        shortenGo w acc ws = joinGo acc pre ++ "…" ∧
        (joinGo acc pre).length + 1 ≤ w := by
  intro ws
  induction ws with
  | nil =>
    intro acc hacc
    exact ⟨[], [], rfl, rfl, by simpa [joinGo] using hacc⟩
  | cons x rest ih =>
    intro acc hacc
    by_cases hfit : acc.length + 1 + x.length + 1 ≤ w
    · have hlen : (acc ++ " " ++ x).length + 1 ≤ w := by
        simp only [String.length_append]
        have h1 : (" " : String).length = 1 := rfl
        rw [h1]
        omega
      obtain ⟨pre, suf, hsplit, hres, hbound⟩ := ih (acc ++ " " ++ x) hlen
      refine ⟨x :: pre, suf, by simp [hsplit], ?_, ?_⟩
      · unfold shortenGo
        rw [if_pos hfit]
        exact hres
      · exact hbound
    · refine ⟨[], x :: rest, rfl, ?_, by simpa [joinGo] using hacc⟩
      unfold shortenGo
      rw [if_neg hfit]
      rfl

/-- After collapsing, the truncation keeps a word prefix and appends one
ellipsis, the total within the width. -/
theorem shortenTrunc_spec (w : Nat) (hw : 1 ≤ w) (ws : List String) :
    ∃ k, shortenTrunc w ws = joinSpace (ws.take k) ++ "…" ∧
      (joinSpace (ws.take k)).length + 1 ≤ w := by
  cases ws with
  | nil =>
    refine ⟨0, rfl, ?_⟩
    simpa [joinSpace] using hw
  | cons x rest =>
    by_cases hfit : x.length + 1 ≤ w
    · obtain ⟨pre, suf, hsplit, hres, hbound⟩ := shortenGo_spec w rest x hfit
      have htake : (x :: rest).take (pre.length + 1) = x :: pre := by
        rw [List.take_succ_cons, hsplit, List.take_left pre suf]
      refine ⟨pre.length + 1, ?_, ?_⟩
      · rw [htake]
        unfold shortenTrunc
        dsimp only
        rw [if_pos hfit]
        exact hres
      · rw [htake]
        exact hbound
    · refine ⟨0, ?_, ?_⟩
      · unfold shortenTrunc
        dsimp only
        rw [if_neg hfit]
        rfl
      · simpa [joinSpace] using hw

/-- The collapsed text is returned whole when it fits. -/
theorem pyShorten_fits (w : Nat) (t : String) (h : (wsCollapse t).length ≤ w) :
    pyShorten w t = wsCollapse t := by
  unfold pyShorten
  rw [if_pos h]

/-- Otherwise the truncation runs on the word list. -/
theorem pyShorten_over (w : Nat) (t : String) (h : ¬ (wsCollapse t).length ≤ w) :
    pyShorten w t = shortenTrunc w (pyWords t) := by
  unfold pyShorten
  rw [if_neg h]

/-- C8 amended: on markup-free input the sanitizer is collapse-then-fit: it
returns the whitespace-collapsed trimmed text whenever that fits the width —
so the input comes back unchanged only when it is already collapsed (the
counterexample shows a fitting input with a double space is still altered) —
and on overflow it returns a word-boundary prefix of the words with one
appended ellipsis, the whole result no longer than the width. -/
theorem sanitizer_truncation :
    ∀ (s : String) (w : Nat), 1 ≤ w → markupFree s →
      (prepare_description (.str s) w = .ok (pyShorten w (pyStrip s))) ∧
      (wsCollapse (pyStrip s) = pyStrip s → (pyStrip s).length ≤ w →
        prepare_description (.str s) w = .ok (pyStrip s)) ∧
      (w < (wsCollapse (pyStrip s)).length →
        ∃ k, prepare_description (.str s) w =
               .ok (joinSpace ((pyWords (pyStrip s)).take k) ++ "…") ∧
             (joinSpace ((pyWords (pyStrip s)).take k)).length + 1 ≤ w) := by
  intro s w hw hm
  have ha : prepare_description (.str s) w = .ok (pyShorten w (pyStrip s)) := by
    unfold prepare_description
    dsimp only
    rw [strip_html_tags_id s hm]
  refine ⟨ha, ?_, ?_⟩
  · intro hcol hlen
    rw [ha, pyShorten_fits w (pyStrip s) (by rw [hcol]; exact hlen), hcol]
  · intro hover
    obtain ⟨k, hres, hbound⟩ := shortenTrunc_spec w hw (pyWords (pyStrip s))
    refine ⟨k, ?_, hbound⟩
    rw [ha, pyShorten_over w (pyStrip s) (by omega), hres]

/-- C8 counterexample: the trimmed markup-free input "a  b" (double space)
fits width 100, yet the sanitizer does not return it unchanged — internal
whitespace is collapsed first. -/
theorem sanitizer_collapses_whitespace :
    pyStrip "a  b" = "a  b" ∧ ("a  b" : String).length ≤ 100 ∧
    prepare_description (.str "a  b") 100 = .ok "a b" ∧
    ("a b" : String) ≠ "a  b" := by
  exact ⟨rfl, by decide, rfl, by decide⟩

/-- C8 witness: the overflow conjunct at the repository's own test vector
(width 15). -/
theorem sanitizer_truncation_witness :
    ∃ k, prepare_description (.str "Correct Horse Battery Staple") 15 =
        .ok (joinSpace ((pyWords (pyStrip "Correct Horse Battery Staple")).take k) ++ "…") ∧
      (joinSpace ((pyWords (pyStrip "Correct Horse Battery Staple")).take k)).length + 1 ≤ 15 :=
  (sanitizer_truncation "Correct Horse Battery Staple" 15 (by decide)
    (by unfold markupFree; decide)).2.2 (by decide)
